import Mathlib

/-!
Verification development for the Golden Balls game engine
(`goldenballs/game.py`): a shallow embedding of the token model, the
Python numeric semantics used by `KillerBall.apply`, and the full game
state machine (`Game` together with its `GameState` subclasses), plus
theorems about the embedded operations.

Modelling conventions:
* Players are identified by their object identity, modelled as a natural
  number (`Pl`).  Python compares `Player` objects by identity, so this is
  faithful for the engine's dict keys, list membership and `==` checks.
* Randomness (`randint` inside `pop_random`, `random.shuffle`) is an
  oracle `Seeds : Nat → Nat`; each random index is taken modulo the
  current range, so every sequence of draws the Python code can make is
  realised by some oracle.
* Python runtime errors (failed `assert`, `KeyError`, `TypeError`,
  `ValueError`, `IndexError`) are modelled by `Except Err`.
* Message strings are modelled as tagged values (`Msg`) carrying the
  semantically relevant payload; the engine treats message text as an
  opaque template table (`messages.py`), so the tags stand for the
  template ids.
* The write-only `stats` audit fields of the Python classes are omitted:
  no engine behaviour reads them.
-/

set_option maxRecDepth 4000

namespace GoldenBalls

/-- Player identity (Python object identity of a `Player`). -/
abbrev Pl := Nat

/-- The value of a `Player.current_game` reference, relative to the one
game being modelled: null, this game, or some other game. -/
inductive GamePtr
  | null
  | this
  | other
deriving DecidableEq

/-- Oracle supplying the random numbers consumed by `pop_random` and
`shuffle`. -/
abbrev Seeds := Nat → Nat

/-- Drops the first `k` values of a seed oracle. -/
def shiftSeeds (s : Seeds) (k : Nat) : Seeds := fun i => s (i + k)

/-- `pop_random` from `util.py`: removes and returns the element at a
random index.  `none` models the `ValueError` that `randint(0, -1)`
raises on an empty list. -/
def pop_random (l : List α) (r : Nat) : Option (α × List α) :=
  match l[r % l.length]? with
  | some a => some (a, l.eraseIdx (r % l.length))
  | none => none

/-- Repeated `pop_random`: draws `n` elements, returning them in draw
order together with the remaining list. -/
def popRandomN (l : List α) : Nat → Seeds → Option (List α × List α)
  | 0, _ => some ([], l)
  | n + 1, s =>
    match pop_random l (s 0) with
    | some (a, l2) =>
      match popRandomN l2 n (shiftSeeds s 1) with
      | some (as, l3) => some (a :: as, l3)
      | none => none
    | none => none

/-- Swap the elements at indices `i` and `j` (identity when an index is
out of range; `random.shuffle` only produces in-range indices). -/
def listSwap (l : List α) (i j : Nat) : List α :=
  match l[i]?, l[j]? with
  | some a, some b => (l.set i b).set j a
  | _, _ => l

/-- The Fisher–Yates loop of `random.shuffle`: for the current index
`c+1` down to `1`, swap with a random index in `[0, c+1]`. -/
def shuffleGo (s : Seeds) : Nat → Nat → List α → List α
  | 0, _, l => l
  | c + 1, k, l => shuffleGo s c (k + 1) (listSwap l (c + 1) (s k % (c + 2)))

/-- `random.shuffle`, parameterised by the seed oracle. -/
def shuffle (l : List α) (s : Seeds) : List α := shuffleGo s (l.length - 1) 0 l

/-! ### Python dicts keyed by players

Python dicts are insertion-ordered; assignment updates an existing key in
place, otherwise appends.  Keys here are `Player` objects, compared by
identity. -/

/-- Dict lookup (`d[k]` guarded / `k in d`). -/
def dictGet (d : List (Pl × α)) (k : Pl) : Option α :=
  match d.find? (fun e => e.1 == k) with
  | some e => some e.2
  | none => none

/-- Python `k in d`. -/
def dictMem (d : List (Pl × α)) (k : Pl) : Bool :=
  (dictGet d k).isSome

/-- Python `d[k] = v`. -/
def dictSet (d : List (Pl × α)) (k : Pl) (v : α) : List (Pl × α) :=
  if dictMem d k then d.map (fun e => if e.1 == k then (k, v) else e)
  else d ++ [(k, v)]

/-- First-occurrence deduplication, matching the iteration order of a
`Counter` built from a list (keys appear in first-encounter order). -/
def pyDedupAux : List Pl → List Pl → List Pl
  | [], _ => []
  | x :: xs, seen => if x ∈ seen then pyDedupAux xs seen else x :: pyDedupAux xs (x :: seen)

/-- Distinct values of a list in first-occurrence order. -/
def pyDedup (l : List Pl) : List Pl := pyDedupAux l []

/-! ### Python numeric semantics for `round(prize / 10)`

`KillerBall.apply` computes `round(prize / 10)` where `prize` is an int:
CPython first computes the correctly-rounded binary64 value of the true
quotient (`long_true_divide`), then `round` maps that double to the
nearest integer with ties to even.  Both steps are modelled exactly over
`ℚ`. -/

/-- Round-half-to-even on the rationals (the rounding used both by IEEE
round-to-nearest and by Python's `round` on a float). -/
def roundHalfEven (q : ℚ) : ℤ :=
  let f := ⌊q⌋
  let r := q - f
  if r < 1/2 then f
  else if 1/2 < r then f + 1
  else if f % 2 = 0 then f else f + 1

/-- Fuel-driven base-2 logarithm on naturals (structural recursion so
that the kernel can evaluate it). -/
def nlog2Aux : Nat → Nat → Nat
  | 0, _ => 0
  | fuel + 1, n => if n ≤ 1 then 0 else nlog2Aux fuel (n / 2) + 1

/-- `nlog2 n` is the floor of log₂ `n` for `n ≥ 1`. -/
def nlog2 (n : Nat) : Nat := nlog2Aux n n

/-- Floor of log₂ of a positive rational. -/
def qLog2 (q : ℚ) : ℤ :=
  let e0 : ℤ := (nlog2 q.num.toNat : ℤ) - (nlog2 q.den : ℤ)
  if q < 2 ^ e0 then e0 - 1 else e0

/-- The binary64 value nearest to `q` (round-to-nearest, ties-to-even),
ignoring exponent overflow/underflow, which is unreachable for the
quotients the engine produces. -/
def floatRound (q : ℚ) : ℚ :=
  if q = 0 then 0
  else
    ((roundHalfEven (q / 2 ^ (qLog2 |q| - 52)) : ℚ)) * 2 ^ (qLog2 |q| - 52)

/-- Python `round(prize / 10)` for an int `prize`: float division
(correctly rounded to binary64), then round-half-even to an int. -/
def pyRoundDiv10 (prize : ℤ) : ℤ :=
  roundHalfEven (floatRound ((prize : ℚ) / 10))

/-! ### Balls -/

/-- A ball: a killer, or a cash ball with a value. -/
inductive Ball
  | killer
  | cash (value : ℤ)
deriving DecidableEq

namespace Ball

/-- `Ball.apply`: a cash ball adds its value, a killer ball replaces the
prize with `round(prize / 10)`. -/
def apply (b : Ball) (prize : ℤ) : ℤ :=
  match b with
  | killer => pyRoundDiv10 prize
  | cash v => prize + v

/-- `Ball.get_cash_value`. -/
def get_cash_value : Ball → ℤ
  | killer => 0
  | cash v => v

/-- `Ball.calculate_total`: folds `apply` over the balls starting from 0. -/
def calculate_total (balls : List Ball) : ℤ :=
  balls.foldl (fun total b => b.apply total) 0

/-- `Ball.calculate_cash_total`: sums the cash values. -/
def calculate_cash_total (balls : List Ball) : ℤ :=
  balls.foldl (fun total b => total + b.get_cash_value) 0

end Ball

/-- The value table of `CashBall.generate_pool`. -/
def poolValues : List ℤ :=
  [    10,     15,     20,     25,     30,     40,     50,     60,
       70,     75,     80,     90,    100,    125,    150,    175,
      200,    225,    250,    275,    300,    325,    350,    375,
      400,    450,    500,    550,    600,    650,    700,    750,
      800,    850,    900,    950,   1000,   1100,   1200,   1250,
     1300,   1400,   1500,   1600,   1700,   1750,   1800,   1900,
     2000,   2250,   2500,   2750,   3000,   3500,   4000,   4500,
     5000,   5500,   6000,   6500,   7000,   7500,   8000,   8500,
     9000,   9500,  10000,  11000,  12000,  13000,  14000,  15000,
    16000,  17000,  18000,  19000,  20000,  21000,  22000,  23000,
    24000,  25000,  26000,  27000,  28000,  29000,  30000,  31000,
    32000,  34000,  35000,  37000,  40000,  45000,  50000,  55000,
    60000,  65000,  70000,  75000]

/-- `CashBall.generate_pool`: the initial pool of 100 cash balls. -/
def generate_pool : List Ball := poolValues.map Ball.cash

/-! ### Python runtime errors -/

/-- Python exceptions the engine can raise. -/
inductive Err
  | assertionError
  | keyError
  | typeError
  | valueError
  | indexError
deriving DecidableEq

/-! ### Messages

One constructor per `get_msg` template id used by `game.py`, carrying the
semantically relevant arguments. -/

/-- The two pick modes of `BinWinState.Action`. -/
inductive BWAction
  | bin
  | win
deriving DecidableEq

/-- The two choices of `SplitStealState.Action`. -/
inductive SSAction
  | split
  | steal
deriving DecidableEq

/-- Tagged engine messages (see `messages.py` for the template text). -/
inductive Msg
  | not_in_game
  | not_in_game_other (name : Pl)
  | kicked (name : Pl)
  | left_game
  | err_not_joinable
  | err_not_votable
  | err_not_viewable
  | err_not_pickable
  | err_not_split_steal
  | game_cancelled
  | err_in_game
  | err_in_other_game
  | game_start (players : List Pl)
  | game_join
  | round12_announce (round : Nat) (shown : List (Pl × List Ball))
  | round12_hidden (balls : List Ball)
  | round12_vote_results (votes : List Pl)
  | round12_voted (name : Pl)
  | round12_voted_response
  | round12_tie (cands : List Pl)
  | round12_done (loser : Pl) (hidden : List (Pl × List Ball))
  | round12_done_early (loser : Pl) (hidden : List (Pl × List Ball))
  | err_voted
  | err_vote_self
  | err_cant_vote
  | round3_announce
  | round3_pick (action : BWAction) (name : Pl) (count : Nat)
  | round3_picked (action : BWAction) (name : Pl) (ball : Ball)
  | round3_win_so_far (balls : List Ball) (total : ℤ)
  | round3_final_bin (ball : Ball)
  | round3_final_win (balls : List Ball)
  | err_not_picking
  | err_ball_invalid
  | round4_announce (prize : ℤ)
  | round4_action (name : Pl)
  | round4_action_response
  | err_action_done
  | round4_lose
  | round4_steal (winner : Pl) (prize : ℤ)
  | round4_split (prize : ℤ)
  | round4_only_player (winner : Pl) (prize : ℤ)
deriving DecidableEq

/-! ### Game state -/

/-- State-local data of `HiddenShownState` (rounds 1 and 2; `number`
distinguishes the `FourPlayerState`/`ThreePlayerState` subclass). -/
structure HSState where
  number : Nat
  shown_balls : List (Pl × List Ball)
  hidden_balls : List (Pl × List Ball)
  vote_candidates : List Pl
  votes : List (Pl × Pl)
deriving DecidableEq

/-- State-local data of `BinWinState`. -/
structure BWState where
  action : BWAction
  player_id : Nat
  win_balls : List Ball
  available_balls : List Ball
deriving DecidableEq

/-- State-local data of `SplitStealState`. -/
structure SSState where
  actions : List (Pl × SSAction)
  prize : ℤ
deriving DecidableEq

/-- The closed set of `GameState` subclasses with their state-local data. -/
inductive GState
  | waiting
  | hiddenShown (st : HSState)
  | binWin (st : BWState)
  | splitSteal (st : SSState)
  | finished
deriving DecidableEq

/-- The `Game` container (the `stats` audit log is omitted: write-only). -/
structure Game where
  host : Pl
  state : GState
  players : List Pl
  channel_messages : List Msg
  dms : Pl → List Msg
  machine_balls : List Ball
  finished : Bool
  results : List (Pl × ℤ)

/-- A game together with the `current_game` back-references of all
players (relative to this game). -/
structure World where
  game : Game
  curr : Pl → GamePtr

/-! ### Primitive world updates -/

/-- `Game._send_channel_message`. -/
def sendChannel (w : World) (m : Msg) : World :=
  { w with game := { w.game with channel_messages := w.game.channel_messages ++ [m] } }

/-- `Game._send_dm`. -/
def sendDM (w : World) (p : Pl) (m : Msg) : World :=
  { w with game :=
    { w.game with dms := fun q => if q = p then w.game.dms q ++ [m] else w.game.dms q } }

/-- The container's `self.state = ...` assignment after a handler returns. -/
def setState (w : World) (st : GState) : World :=
  { w with game := { w.game with state := st } }

/-- `Game._add_player`: set the back-reference, append to the player
list, and create a zero entry in `results`. -/
def addPlayer (w : World) (p : Pl) : World :=
  { game := { w.game with
      players := w.game.players ++ [p]
      results := dictSet w.game.results p 0 }
    curr := fun q => if q = p then .this else w.curr q }

/-- `Game._remove_player`: clear the back-reference and remove the first
occurrence from the player list (`list.remove` raises `ValueError` when
the player is absent). -/
def removePlayer (w : World) (p : Pl) : Except Err World :=
  if p ∈ w.game.players then
    .ok { game := { w.game with players := w.game.players.erase p }
          curr := fun q => if q = p then .null else w.curr q }
  else .error .valueError

/-- `GameState._require_playing`: `some msg` is the error return. -/
def require_playing (w : World) (p : Pl) (you : Bool) : Option Msg :=
  if w.curr p = .this then none
  else some (if you then .not_in_game else .not_in_game_other p)

/-- `GameState._get_leave_msg`. -/
def get_leave_msg (p : Pl) (forced : Bool) : Msg :=
  if forced then .kicked p else .left_game

/-- `FinishedState.__init__`: remove every remaining player and set the
finished flag; the constructed state is installed by the caller. -/
def mkFinished (w : World) : World :=
  { game := { w.game with players := [], state := .finished, finished := true }
    curr := fun q => if q ∈ w.game.players then .null else w.curr q }

/-- `GameState.on_leave` (the default handler, also used via `super()`):
remove the player, cancelling the game when nobody is left. -/
def gsOnLeave (w : World) (p : Pl) (forced : Bool) : Except Err (World × Msg) :=
  match require_playing w p (!forced) with
  | some m => .ok (w, m)
  | none => do
    let w2 ← removePlayer w p
    if w2.game.players.length = 0 then
      .ok (mkFinished (sendChannel w2 .game_cancelled), get_leave_msg p forced)
    else
      .ok (w2, get_leave_msg p forced)

/-! ### HiddenShownState -/

/-- The per-player allocation loop of `HiddenShownState.__init__`: for
each player in order, pop `shown_count` then `hidden_count` random
balls. -/
def hsAlloc (shown_count hidden_count : Nat) :
    List Pl → List Ball → Seeds →
    Except Err (List (Pl × List Ball) × List (Pl × List Ball) × List Ball)
  | [], balls, _ => .ok ([], [], balls)
  | p :: ps, balls, s =>
    match popRandomN balls shown_count s with
    | some (sh, balls2) =>
      match popRandomN balls2 hidden_count (shiftSeeds s shown_count) with
      | some (hd, balls3) =>
        match hsAlloc shown_count hidden_count ps balls3 (shiftSeeds s (shown_count + hidden_count)) with
        | .ok (shs, hds, rest) => .ok ((p, sh) :: shs, (p, hd) :: hds, rest)
        | .error e => .error e
      | none => .error .valueError
    | none => .error .valueError

/-- `HiddenShownState.__init__`: draw the fresh cash balls from the
machine, mint the killers, check the count assertion, allocate, and
queue the announcements. -/
def mkHiddenShown (w : World) (number : Nat) (initial_balls : List Ball)
    (new_cash_ball_count new_killer_count shown_count hidden_count : Nat) (s : Seeds) :
    Except Err (World × GState) :=
  match popRandomN w.game.machine_balls new_cash_ball_count s with
  | none => .error .valueError
  | some (drawn, machine2) =>
    if (initial_balls ++ drawn ++ List.replicate new_killer_count Ball.killer).length ≠
        (shown_count + hidden_count) * w.game.players.length then
      .error .assertionError
    else
      match hsAlloc shown_count hidden_count w.game.players
          (initial_balls ++ drawn ++ List.replicate new_killer_count Ball.killer)
          (shiftSeeds s new_cash_ball_count) with
      | .error e => .error e
      | .ok (shown, hidden, _) =>
        let w3 := sendChannel
          { w with game := { w.game with machine_balls := machine2 } }
          (.round12_announce number shown)
        .ok (w.game.players.foldl
              (fun wa p => sendDM wa p (.round12_hidden ((dictGet hidden p).getD []))) w3,
            .hiddenShown ⟨number, shown, hidden, w.game.players, []⟩)

/-- Shown/hidden ball counts of `FourPlayerState` and the fresh ball
counts it requests. -/
def four_shown_count : Nat := 2
def four_hidden_count : Nat := 2
def four_cash_ball_count : Nat := 12
def four_killer_count : Nat := 4

/-- Shown/hidden ball counts of `ThreePlayerState` and the fresh ball
counts it requests. -/
def three_shown_count : Nat := 2
def three_hidden_count : Nat := 3
def three_cash_ball_count : Nat := 2
def three_killer_count : Nat := 1

/-- `FourPlayerState.__init__` (round 1). -/
def mkFourPlayerState (w : World) (s : Seeds) : Except Err (World × GState) :=
  mkHiddenShown w 1 [] four_cash_ball_count four_killer_count
    four_shown_count four_hidden_count s

/-- `ThreePlayerState.__init__` (round 2). -/
def mkThreePlayerState (w : World) (initial_balls : List Ball) (s : Seeds) :
    Except Err (World × GState) :=
  mkHiddenShown w 2 initial_balls three_cash_ball_count three_killer_count
    three_shown_count three_hidden_count s

/-- `HiddenShownState._get_ball_list`: the shown then hidden balls of
each currently seated player, in seat order (`KeyError` on a missing
dict entry). -/
def hsGetBallList (hs : HSState) : List Pl → Except Err (List Ball)
  | [] => .ok []
  | p :: ps =>
    match dictGet hs.shown_balls p, dictGet hs.hidden_balls p with
    | some sh, some hd =>
      match hsGetBallList hs ps with
      | .ok rest => .ok (sh ++ hd ++ rest)
      | .error e => .error e
    | _, _ => .error .keyError

/-- Python `<` on `(cash_total, player)` tuples: fall through to the
second component only on equal totals, where comparing two distinct
`Player` objects raises `TypeError`. -/
def pyTupLt (a b : ℤ × Pl) : Except Err Bool :=
  if a.1 = b.1 then
    (if a.2 = b.2 then .ok false else .error .typeError)
  else .ok (decide (a.1 < b.1))

/-- Stable descending insertion of one element (the element being
inserted comes later in the original order, so it goes after equal
entries). -/
def insertDesc (x : ℤ × Pl) : List (ℤ × Pl) → Except Err (List (ℤ × Pl))
  | [] => .ok [x]
  | y :: ys => do
    let b ← pyTupLt y x
    if b then .ok (x :: y :: ys)
    else do
      let r ← insertDesc x ys
      .ok (y :: r)

/-- `list.sort(reverse=True)`: a stable descending sort with Python's
fallible tuple comparison (Timsort and insertion sort perform the same
single comparison on the two-element lists this engine sorts). -/
def pySortDesc (l : List (ℤ × Pl)) : Except Err (List (ℤ × Pl)) :=
  l.foldlM (fun acc x => insertDesc x acc) []

/-- The `(cash_total, player)` list built by
`ThreePlayerState._get_next_state`. -/
def cashPairs (w : World) (hs : HSState) : List Pl → Except Err (List (ℤ × Pl))
  | [] => .ok []
  | p :: ps =>
    match dictGet hs.hidden_balls p, dictGet hs.shown_balls p with
    | some hd, some sh =>
      match cashPairs w hs ps with
      | .ok rest => .ok ((Ball.calculate_cash_total (hd ++ sh), p) :: rest)
      | .error e => .error e
    | _, _ => .error .keyError

/-! ### BinWinState -/

/-- `BinWinState._announce`. -/
def bwAnnounce (w : World) (st : BWState) : Except Err World :=
  match w.game.players[st.player_id]? with
  | some p => .ok (sendChannel w (.round3_pick st.action p st.available_balls.length))
  | none => .error .indexError

/-- `BinWinState.__init__`: shuffle the leftover pool, append one fresh
killer, and announce the first pick. -/
def mkBinWinState (w : World) (initial_balls : List Ball) (first_player : Pl) (s : Seeds) :
    Except Err (World × GState) :=
  if first_player ∈ w.game.players then
    let st : BWState :=
      ⟨.bin, w.game.players.indexOf first_player, [],
        shuffle initial_balls s ++ [Ball.killer]⟩
    match bwAnnounce (sendChannel w .round3_announce) st with
    | .ok w2 => .ok (w2, .binWin st)
    | .error e => .error e
  else .error .valueError

/-- `ThreePlayerState._get_next_state`: rank the two remaining players
by cash-only total (descending) and start Bin/Win with the top one. -/
def threePlayerNextState (w : World) (hs : HSState) (balls : List Ball) (s : Seeds) :
    Except Err (World × GState) := do
  let pairs ← cashPairs w hs w.game.players
  let sorted ← pySortDesc pairs
  match sorted with
  | [] => .error .indexError
  | top :: _ => mkBinWinState w balls top.2 s

/-- `HiddenShownState._start_next`: remove the loser, then build the
leftover pool from the remaining players and start the next state. -/
def hsStartNext (w : World) (hs : HSState) (loser : Pl) (s : Seeds) :
    Except Err (World × GState) := do
  let w2 ← removePlayer w loser
  let balls ← hsGetBallList hs w2.game.players
  if hs.number = 1 then
    mkThreePlayerState w2 balls s
  else
    threePlayerNextState w2 hs balls s

/-- `HiddenShownState._vote_done`: announce, tally first-encounter
style, and either eliminate the unique maximum or restart the vote with
the tied candidates. -/
def hsVoteDone (w : World) (hs : HSState) (s : Seeds) : Except Err (World × GState) :=
  let w := sendChannel w (.round12_vote_results (hs.votes.map (fun e => e.2)))
  let vals := hs.votes.map (fun e => e.2)
  if vals.length = 0 then .error .indexError
  else
    let cands := pyDedup vals
    let max_count := (cands.map (fun t => vals.count t)).foldl Nat.max 0
    let losers := cands.filter (fun t => vals.count t = max_count)
    match losers with
    | [loser] =>
      let w := sendChannel w (.round12_done loser
        (w.game.players.map (fun q => (q, (dictGet hs.hidden_balls q).getD []))))
      hsStartNext w hs loser s
    | _ =>
      let w := sendChannel w (.round12_tie losers)
      .ok (w, .hiddenShown { hs with vote_candidates := losers, votes := [] })

/-- `HiddenShownState.on_vote`. -/
def hsVote (w : World) (hs : HSState) (p t : Pl) (s : Seeds) : Except Err (World × Msg) :=
  if dictMem hs.votes p then .ok (w, .err_voted)
  else if p = t then .ok (w, .err_vote_self)
  else match require_playing w p true with
  | some m => .ok (w, m)
  | none => match require_playing w t false with
    | some m => .ok (w, m)
    | none =>
      if t ∉ hs.vote_candidates then .ok (w, .err_cant_vote)
      else
        let hs2 := { hs with votes := dictSet hs.votes p t }
        let w := sendChannel w (.round12_voted p)
        if hs2.votes.length = w.game.players.length then do
          let (w2, g2) ← hsVoteDone w hs2 s
          .ok (setState w2 g2, .round12_voted_response)
        else
          .ok (setState w (.hiddenShown hs2), .round12_voted_response)

/-- `HiddenShownState.on_view_balls`: an unchecked dict lookup
(`KeyError` for a player without an allocation). -/
def hsViewBalls (w : World) (hs : HSState) (p : Pl) : Except Err (World × Msg) :=
  match dictGet hs.hidden_balls p with
  | some balls => .ok (w, .round12_hidden balls)
  | none => .error .keyError

/-- `HiddenShownState.on_leave`: an immediate vote-free elimination. -/
def hsLeave (w : World) (hs : HSState) (p : Pl) (forced : Bool) (s : Seeds) :
    Except Err (World × Msg) :=
  match require_playing w p true with
  | some m => .ok (w, m)
  | none => do
    let w := sendChannel w (.round12_done_early p
      (w.game.players.map (fun q => (q, (dictGet hs.hidden_balls q).getD []))))
    let (w2, g2) ← hsStartNext w hs p s
    .ok (setState w2 g2, get_leave_msg p forced)

/-! ### SplitStealState -/

/-- `SplitStealState.__init__`: compute the prize once and announce it. -/
def mkSplitStealState (w : World) (initial_balls : List Ball) : World × GState :=
  let prize := Ball.calculate_total initial_balls
  (sendChannel w (.round4_announce prize), .splitSteal ⟨[], prize⟩)

/-- `SplitStealState._finish_game`: pay out according to the action
matrix and construct the finished state. -/
def ssFinishGame (w : World) (st : SSState) : Except Err (World × GState) :=
  match w.game.players with
  | [winner] =>
    let w := { w with game := { w.game with results := dictSet w.game.results winner st.prize } }
    let w := sendChannel w (.round4_only_player winner st.prize)
    .ok (mkFinished w, .finished)
  | _ =>
    let steal_count := (st.actions.map (fun e => e.2)).count SSAction.steal
    if steal_count = 2 then
      .ok (mkFinished (sendChannel w .round4_lose), .finished)
    else if steal_count = 1 then
      match w.game.players[0]? with
      | none => .error .indexError
      | some first =>
        match dictGet st.actions first with
        | none => .error .keyError
        | some a0 =>
          match (if a0 = SSAction.steal then some first else w.game.players[1]?) with
          | none => .error .indexError
          | some winner =>
            let w := { w with game :=
              { w.game with results := dictSet w.game.results winner st.prize } }
            .ok (mkFinished (sendChannel w (.round4_steal winner st.prize)), .finished)
    else
      let prize2 := Int.fdiv st.prize 2
      let w := w.game.players.foldl
        (fun wa p => { wa with game :=
          { wa.game with results := dictSet wa.game.results p prize2 } }) w
      .ok (mkFinished (sendChannel w (.round4_split prize2)), .finished)

/-- `SplitStealState._handle_action`. -/
def ssHandleAction (w : World) (st : SSState) (p : Pl) (a : SSAction) :
    Except Err (World × Msg) :=
  match require_playing w p true with
  | some m => .ok (w, m)
  | none =>
    if dictMem st.actions p then .ok (w, .err_action_done)
    else
      let st2 : SSState := { st with actions := dictSet st.actions p a }
      let w := sendChannel w (.round4_action p)
      if st2.actions.length = w.game.players.length then do
        let (w2, g2) ← ssFinishGame w st2
        .ok (setState w2 g2, .round4_action_response)
      else
        .ok (setState w (.splitSteal st2), .round4_action_response)

/-- `SplitStealState.on_leave`: after the generic removal, resolve
immediately if a single player remains. -/
def ssLeave (w : World) (st : SSState) (p : Pl) (forced : Bool) :
    Except Err (World × Msg) := do
  let (w2, msg) ← gsOnLeave w p forced
  if w2.game.players.length = 1 then do
    let (w3, g3) ← ssFinishGame w2 st
    .ok (setState w3 g3, msg)
  else
    .ok (w2, msg)

/-! ### BinWinState picking and leaving -/

/-- `BinWinState.on_pick`. -/
def bwPick (w : World) (st : BWState) (p : Pl) (ball_id : ℤ) : Except Err (World × Msg) :=
  match require_playing w p true with
  | some m => .ok (w, m)
  | none =>
    match w.game.players[st.player_id]? with
    | none => .error .indexError
    | some current =>
      if p ≠ current then .ok (w, .err_not_picking)
      else
        let idx := ball_id - 1
        if ¬ (0 ≤ idx ∧ idx < (st.available_balls.length : ℤ)) then
          .ok (w, .err_ball_invalid)
        else
          match st.available_balls[idx.toNat]? with
          | none => .error .indexError
          | some ball =>
            let avail2 := st.available_balls.eraseIdx idx.toNat
            let win2 := if st.action = .win then st.win_balls ++ [ball] else st.win_balls
            let w := if st.action = .win then
                sendChannel w (.round3_win_so_far win2 (Ball.calculate_total win2))
              else w
            let msg := Msg.round3_picked st.action p ball
            let st2 : BWState :=
              if st.action = .bin then ⟨.win, st.player_id, win2, avail2⟩
              else ⟨.bin, (st.player_id + 1) % w.game.players.length, win2, avail2⟩
            if avail2.length > 1 then
              match bwAnnounce w st2 with
              | .ok w2 => .ok (setState w2 (.binWin st2), msg)
              | .error e => .error e
            else
              match avail2.getLast? with
              | none => .error .indexError
              | some binned =>
                let w := sendChannel w (.round3_final_bin binned)
                let w := sendChannel w (.round3_final_win win2)
                let (w2, g2) := mkSplitStealState w win2
                .ok (setState w2 g2, msg)

/-- `BinWinState.on_leave`: the index of the leaver is taken before the
generic removal (`list.index` raises `ValueError` first for an
outsider); if the active seat left, the turn pointer resets and the
pick is re-announced. -/
def bwLeave (w : World) (st : BWState) (p : Pl) (forced : Bool) : Except Err (World × Msg) :=
  if p ∈ w.game.players then do
    let before := w.game.players.length
    let idx := w.game.players.indexOf p
    let (w2, msg) ← gsOnLeave w p forced
    if before ≠ w2.game.players.length ∧ idx = st.player_id then
      let st2 : BWState := { st with player_id := 0 }
      match bwAnnounce w2 st2 with
      | .error e => .error e
      | .ok w3 =>
        match w2.game.state with
        | .binWin _ => .ok (setState w3 (.binWin st2), msg)
        | _ => .ok (w3, msg)
    else
      .ok (w2, msg)
  else .error .valueError

/-! ### WaitingState -/

/-- `WaitingState.PLAYER_COUNT`. -/
def waiting_player_count : Nat := 4

/-- `WaitingState.on_join`. -/
def waitingJoin (w : World) (p : Pl) (s : Seeds) : Except Err (World × Msg) :=
  if p ∈ w.game.players then .ok (w, .err_in_game)
  else if w.curr p ≠ .null then .ok (w, .err_in_other_game)
  else
    let w2 := addPlayer w p
    if w2.game.players.length = waiting_player_count then do
      let w3 := sendChannel w2 (.game_start w2.game.players)
      let (w4, g4) ← mkFourPlayerState w3 s
      .ok (setState w4 g4, .game_join)
    else
      .ok (w2, .game_join)

/-! ### The public operations -/

/-- The seven mutating operations a caller can invoke on one session. -/
inductive Op
  | join (p : Pl)
  | vote (p t : Pl)
  | viewBalls (p : Pl)
  | pick (p : Pl) (ball_id : ℤ)
  | split (p : Pl)
  | steal (p : Pl)
  | leave (p : Pl) (forced : Bool)

/-- One mutating call on the game container: dispatch to the current
state's handler (stubbed handlers answer with the state-specific error
message), then install the returned state. -/
def step (w : World) (op : Op) (s : Seeds) : Except Err (World × Msg) :=
  match op with
  | .join p =>
    match w.game.state with
    | .waiting => waitingJoin w p s
    | _ => .ok (w, .err_not_joinable)
  | .vote p t =>
    match w.game.state with
    | .hiddenShown hs => hsVote w hs p t s
    | _ => .ok (w, .err_not_votable)
  | .viewBalls p =>
    match w.game.state with
    | .hiddenShown hs => hsViewBalls w hs p
    | _ => .ok (w, .err_not_viewable)
  | .pick p ball_id =>
    match w.game.state with
    | .binWin bw => bwPick w bw p ball_id
    | _ => .ok (w, .err_not_pickable)
  | .split p =>
    match w.game.state with
    | .splitSteal ss => ssHandleAction w ss p .split
    | _ => .ok (w, .err_not_split_steal)
  | .steal p =>
    match w.game.state with
    | .splitSteal ss => ssHandleAction w ss p .steal
    | _ => .ok (w, .err_not_split_steal)
  | .leave p forced =>
    match w.game.state with
    | .hiddenShown hs => hsLeave w hs p forced s
    | .binWin bw => bwLeave w bw p forced
    | .splitSteal ss => ssLeave w ss p forced
    | _ => gsOnLeave w p forced

/-- `Game.__init__` + `Game.start_game`: a fresh game in the waiting
state with the host seated, given the ambient back-references `env` of
all players (no player can reference the fresh game, and the host must
not be busy for `start_game` to succeed). -/
def initWorld (host : Pl) (env : Pl → GamePtr) : World :=
  addPlayer
    { game :=
      { host := host
        state := .waiting
        players := []
        channel_messages := []
        dms := fun _ => []
        machine_balls := generate_pool
        finished := false
        results := [] }
      curr := env }
    host

/-- Runs a script of operations, each with its own seed oracle. -/
def stepRun (w : World) : List (Op × Seeds) → Except Err World
  | [] => .ok w
  | (op, s) :: rest =>
    match step w op s with
    | .ok (w2, _) => stepRun w2 rest
    | .error e => .error e

/-- The worlds reachable from a fresh game through successful public
operations. -/
inductive Reach : World → Prop
  | init (host : Pl) (env : Pl → GamePtr)
      (henv : ∀ p, env p ≠ .this) (hfree : env host = .null) :
      Reach (initWorld host env)
  | next (w w2 : World) (op : Op) (s : Seeds) (m : Msg)
      (hw : Reach w) (h : step w op s = .ok (w2, m)) :
      Reach w2

/-! ### Run projections (decidable views of a script run) -/

/-- The error a script run ends in, if any. -/
def runErr (w : World) (script : List (Op × Seeds)) : Option Err :=
  match stepRun w script with
  | .error e => some e
  | .ok _ => none

/-- The finished flag and results map after a script run. -/
def runResults (w : World) (script : List (Op × Seeds)) : Option (Bool × List (Pl × ℤ)) :=
  match stepRun w script with
  | .ok w2 => some (w2.game.finished, w2.game.results)
  | .error _ => none

/-- The machine state after a script run. -/
def runGState (w : World) (script : List (Op × Seeds)) : Option GState :=
  match stepRun w script with
  | .ok w2 => some w2.game.state
  | .error _ => none

/-! ### Concrete runs used by the counterexamples -/

/-- The all-zero seed oracle (every `pop_random` takes index 0). -/
def zeroSeeds : Seeds := fun _ => 0

/-- A fresh game hosted by player 0, with all players initially free. -/
def demoWorld : World := initWorld 0 (fun _ => .null)

/-- Seeds for the round-1 construction of the engineered tie game:
machine draws 10,15,25,40,60,70,75,80,20,30,50,90 then allocates
shown/hidden as 0:(10,40|K,K), 1:(15,60|K,K), 2:(25,70|75,80),
3:(20,30|50,90). -/
def tieSeedsRound1 : Seeds :=
  fun i => [0, 0, 1, 2, 3, 3, 3, 3, 0, 0, 0, 0,
            0, 2, 10, 10, 0, 1, 8, 8, 0, 0, 0, 0, 0, 0, 0, 0].getD i 0

/-- Seeds for the round-2 construction of the engineered tie game:
machine draws 100,125 then allocates 0:(10,40|K,K,25), 1:(15,60|K,K,K),
2:(70,75|80,100,125), so players 0 and 1 both have cash total 75. -/
def tieSeedsRound2 : Seeds :=
  fun i => [0, 0, 0, 0, 0, 0, 4, 0, 0, 0, 0, 5, 0, 0, 0, 0, 0].getD i 0

/-- A full game whose two round-2 survivors have equal cash totals
(75 each): rounds 1 and 2 complete and the round-2 elimination vote
reaches `ThreePlayerState._get_next_state` with a tie. -/
def tieScript : List (Op × Seeds) :=
  [(.join 1, zeroSeeds), (.join 2, zeroSeeds), (.join 3, tieSeedsRound1),
   (.vote 0 3, zeroSeeds), (.vote 1 3, zeroSeeds), (.vote 2 3, zeroSeeds),
   (.vote 3 0, tieSeedsRound2),
   (.vote 0 2, zeroSeeds), (.vote 1 2, zeroSeeds), (.vote 2 0, zeroSeeds)]

/-- All-zero-seed joins: round 1 allocates 0:(10,15|20,25),
1:(30,40|50,60), 2:(70,75|80,90), 3:(K,K|K,K). -/
def demoJoins : List (Op × Seeds) :=
  [(.join 1, zeroSeeds), (.join 2, zeroSeeds), (.join 3, zeroSeeds)]

/-- Round 1 of the demo game, ending with the elimination of player 0
(who holds the cash balls 10, 15, 20 and 25). -/
def demoRound1LoserZero : List (Op × Seeds) :=
  demoJoins ++
  [(.vote 0 1, zeroSeeds), (.vote 1 0, zeroSeeds), (.vote 2 0, zeroSeeds),
   (.vote 3 0, zeroSeeds)]

/-- A complete demo game: player 3 (all killers) is voted out in round
1, player 2 in round 2, players 0 and 1 pick through Bin/Win and both
split a prize of 180. -/
def demoFullGame : List (Op × Seeds) :=
  demoJoins ++
  [(.vote 0 3, zeroSeeds), (.vote 1 3, zeroSeeds), (.vote 2 3, zeroSeeds),
   (.vote 3 0, zeroSeeds),
   (.vote 0 2, zeroSeeds), (.vote 1 2, zeroSeeds), (.vote 2 0, zeroSeeds),
   (.pick 1 1, zeroSeeds), (.pick 1 1, zeroSeeds), (.pick 0 1, zeroSeeds),
   (.pick 0 1, zeroSeeds), (.pick 1 1, zeroSeeds), (.pick 1 1, zeroSeeds),
   (.pick 0 1, zeroSeeds), (.pick 0 1, zeroSeeds), (.pick 1 1, zeroSeeds),
   (.pick 1 1, zeroSeeds),
   (.split 0, zeroSeeds), (.split 1, zeroSeeds)]

/-! ### Reduction lemmas for fallible computations -/

@[simp] theorem exbind_ok {ε α β : Type} (a : α) (f : α → Except ε β) :
    (Except.ok a >>= f) = f a := rfl

@[simp] theorem exbind_err {ε α β : Type} (e : ε) (f : α → Except ε β) :
    ((Except.error e : Except ε α) >>= f) = Except.error e := rfl

@[simp] theorem exmap_ok {ε α β : Type} (a : α) (f : α → β) :
    (Except.ok a : Except ε α).map f = Except.ok (f a) := rfl

@[simp] theorem exmap_err {ε α β : Type} (e : ε) (f : α → β) :
    (Except.error e : Except ε α).map f = Except.error e := rfl

/-! ### Permutation facts about the shuffle -/

theorem cons_set_perm {α : Type} (a b : α) :
    ∀ (t : List α) (k : Nat), t[k]? = some b → (b :: t.set k a).Perm (a :: t) := by
  intro t
  induction t with
  | nil => intro k h; simp at h
  | cons c t ih =>
    intro k h
    cases k with
    | zero =>
      simp only [List.getElem?_cons_zero, Option.some.injEq] at h
      subst h
      simp only [List.set_cons_zero]
      exact List.Perm.swap a c t
    | succ k =>
      simp only [List.getElem?_cons_succ] at h
      have hs : (c :: t).set (k + 1) a = c :: t.set k a := by simp
      rw [hs]
      exact (List.Perm.swap c b _).trans (((ih k h).cons c).trans (List.Perm.swap a c t))

theorem listSwap_perm {α : Type} : ∀ (l : List α) (i j : Nat), (listSwap l i j).Perm l := by
  intro l
  induction l with
  | nil => intro i j; unfold listSwap; simp
  | cons c t ih =>
    intro i j
    unfold listSwap
    cases i with
    | zero =>
      cases j with
      | zero => simp
      | succ k =>
        simp only [List.getElem?_cons_zero, List.getElem?_cons_succ]
        match h : t[k]? with
        | some b =>
          simp only [List.set_cons_zero, List.set_cons_succ]
          exact cons_set_perm c b t k h
        | none => simp
    | succ m =>
      cases j with
      | zero =>
        simp only [List.getElem?_cons_zero, List.getElem?_cons_succ]
        match h : t[m]? with
        | some a =>
          simp only [List.set_cons_succ, List.set_cons_zero]
          exact cons_set_perm c a t m h
        | none => simp
      | succ k =>
        simp only [List.getElem?_cons_succ]
        match h1 : t[m]?, h2 : t[k]? with
        | some a, some b =>
          simp only [List.set_cons_succ]
          have := ih m k
          unfold listSwap at this
          rw [h1, h2] at this
          exact this.cons c
        | some a, none => simp
        | none, _ => simp

theorem shuffleGo_perm {α : Type} (s : Seeds) :
    ∀ (c k : Nat) (l : List α), (shuffleGo s c k l).Perm l := by
  intro c
  induction c with
  | zero => intro k l; exact List.Perm.refl l
  | succ c ih =>
    intro k l
    unfold shuffleGo
    exact (ih (k + 1) _).trans (listSwap_perm l (c + 1) (s k % (c + 2)))

/-- `random.shuffle` permutes its input. -/
theorem shuffle_perm {α : Type} (l : List α) (s : Seeds) : (shuffle l s).Perm l :=
  shuffleGo_perm s (l.length - 1) 0 l

/-! ### Claim C9: the Bin/Win pool construction -/

/-- A two-player world about to construct the Bin/Win state. -/
def c9World : World :=
  { game :=
    { host := 0
      state := .waiting
      players := [0, 1]
      channel_messages := []
      dms := fun _ => []
      machine_balls := []
      finished := false
      results := [(0, 0), (1, 0)] }
    curr := fun q => if q ≤ 1 then .this else .null }

/-- C9, counterexample: for a leftover pool consisting of the single
cash-10 ball, every random choice yields the available pool
`[cash 10, killer]` — the freshly minted killer is never anywhere but
the last position, so the pool is not "leftovers plus killer shuffled
together into a uniformly random order". -/
theorem c9_counterexample :
    (fun s : Seeds => (mkBinWinState c9World [Ball.cash 10] 0 s).map (fun r => r.2)) =
      (fun _ : Seeds =>
        .ok (.binWin ⟨.bin, 0, [], [Ball.cash 10, Ball.killer]⟩)) := by
  funext s
  with_unfolding_all rfl

/-- C9, amended: the Bin/Win pool is the leftover pool shuffled into a
uniformly random order with one freshly minted killer token appended
after the shuffle, so the minted killer always occupies the final
position of the initial pool arrangement. -/
theorem c9_amended (w : World) (balls : List Ball) (first : Pl) (s : Seeds)
    (st : BWState)
    (h : (mkBinWinState w balls first s).map (fun r => r.2) = .ok (.binWin st)) :
    st.available_balls = shuffle balls s ++ [Ball.killer] ∧
    st.available_balls.dropLast.Perm balls ∧
    st.available_balls.getLast? = some Ball.killer := by
  unfold mkBinWinState at h
  split at h
  · dsimp only [] at h
    split at h
    · simp only [Except.map] at h
      injection h with h
      injection h with h
      subst h
      refine ⟨rfl, ?_, ?_⟩
      · rw [List.dropLast_concat]
        exact shuffle_perm balls s
      · exact List.getLast?_concat _
    · simp [Except.map] at h
  · simp [Except.map] at h

/-- C9, witness for the amended theorem at a concrete construction. -/
theorem c9_amended_witness :
    ([Ball.cash 10, Ball.killer] : List Ball) =
      shuffle [Ball.cash 10] zeroSeeds ++ [Ball.killer] ∧
    ([Ball.cash 10, Ball.killer] : List Ball).dropLast.Perm [Ball.cash 10] ∧
    ([Ball.cash 10, Ball.killer] : List Ball).getLast? = some Ball.killer :=
  c9_amended c9World [Ball.cash 10] 0 zeroSeeds
    ⟨.bin, 0, [], [Ball.cash 10, Ball.killer]⟩ (by with_unfolding_all rfl)

/-! ### Claim C5: counterexample -/

/-- C5, counterexample: the freshly started session `demoWorld` is
reachable, its finished flag is false, and its results map already has
the zero entry created for the host by `Game._add_player` — so the
results map is not empty before the finished flag is set. -/
theorem c5_counterexample :
    Reach demoWorld ∧
    demoWorld.game.finished = false ∧
    demoWorld.game.results = [(0, 0)] :=
  ⟨Reach.init 0 (fun _ => .null) (fun _ h => GamePtr.noConfusion h) rfl,
   by with_unfolding_all decide, by with_unfolding_all decide⟩

/-! ### Claims C6 and C4: runs that fault -/

/-- Whether a game state is a HiddenShown round. -/
def isHiddenShown : GState → Bool
  | .hiddenShown _ => true
  | _ => false

/-- Whether a fallible computation succeeded. -/
def exceptOk : Except ε α → Bool
  | .ok _ => true
  | .error _ => false

/-- C6: `viewHiddenTokens` by a player who is not seated in the game
(player 99) during round 1 faults with a `KeyError`
(`self.hidden_balls[player]` in `HiddenShownState.on_view_balls` has no
seating check), instead of returning an ordinary response. -/
theorem c6_view_balls_keyerror :
    runErr demoWorld (demoJoins ++ [(.viewBalls 99, zeroSeeds)]) = some .keyError ∧
    runErr demoWorld demoJoins = none ∧
    (runGState demoWorld demoJoins).map isHiddenShown = some true := by
  refine ⟨?_, ?_, ?_⟩ <;> with_unfolding_all decide

/-- C4: a reachable game whose two round-2 survivors have equal
cash-only totals (75 each) faults with a `TypeError` when the round-2
elimination fires: `ThreePlayerState._get_next_state` sorts
`(total, player)` tuples and equal totals make Python compare the
unorderable `Player` objects. -/
theorem c4_tie_typeerror :
    runErr demoWorld tieScript = some .typeError ∧
    runErr demoWorld tieScript.dropLast = none ∧
    (runGState demoWorld tieScript.dropLast).map isHiddenShown = some true ∧
    Ball.calculate_cash_total
      ([.killer, .killer, .cash 25] ++ [.cash 10, .cash 40]) = 75 ∧
    Ball.calculate_cash_total
      ([.killer, .killer, .killer] ++ [.cash 15, .cash 60]) = 75 := by
  refine ⟨?_, ?_, ?_, ?_, ?_⟩ <;> with_unfolding_all decide

/-! ### Claim C3: the eliminated player's tokens and the leftover pool -/

/-- C3, counterexample: in the demo game, player 0 is voted out of
round 1 holding the cash balls 10, 15, 20, 25; the resulting round-2
state (allocations shown below) contains none of them — in particular
the loser's shown cash-10 ball is not in the pool passed on. -/
theorem c3_counterexample :
    runGState demoWorld demoJoins =
      some (.hiddenShown ⟨1,
        [(0, [.cash 10, .cash 15]), (1, [.cash 30, .cash 40]),
         (2, [.cash 70, .cash 75]), (3, [.killer, .killer])],
        [(0, [.cash 20, .cash 25]), (1, [.cash 50, .cash 60]),
         (2, [.cash 80, .cash 90]), (3, [.killer, .killer])],
        [0, 1, 2, 3], []⟩) ∧
    runGState demoWorld demoRound1LoserZero =
      some (.hiddenShown ⟨2,
        [(1, [.cash 30, .cash 40]), (2, [.cash 75, .cash 80]),
         (3, [.killer, .killer])],
        [(1, [.cash 50, .cash 60, .cash 70]), (2, [.cash 90, .killer, .killer]),
         (3, [.cash 100, .cash 125, .killer])],
        [1, 2, 3], []⟩) := by
  refine ⟨?_, ?_⟩ <;> with_unfolding_all decide

/-- Every ball gathered by `_get_ball_list` belongs to some listed
player's shown or hidden allocation. -/
theorem hsGetBallList_mem (hs : HSState) :
    ∀ (ps : List Pl) (balls : List Ball), hsGetBallList hs ps = .ok balls →
    ∀ b ∈ balls, ∃ p ∈ ps,
      (∃ l, dictGet hs.shown_balls p = some l ∧ b ∈ l) ∨
      (∃ l, dictGet hs.hidden_balls p = some l ∧ b ∈ l) := by
  intro ps
  induction ps with
  | nil =>
    intro balls hb
    unfold hsGetBallList at hb
    injection hb with hb
    subst hb
    intro b hbb
    simp at hbb
  | cons p ps ih =>
    intro balls hb
    unfold hsGetBallList at hb
    split at hb
    next sh hd hsh hhd =>
      split at hb
      next rest hrest =>
        injection hb with hb
        subst hb
        intro b hbb
        rw [List.mem_append, List.mem_append] at hbb
        rcases hbb with (hbs | hbh) | hbr
        · exact ⟨p, List.mem_cons_self p ps, Or.inl ⟨sh, hsh, hbs⟩⟩
        · exact ⟨p, List.mem_cons_self p ps, Or.inr ⟨hd, hhd, hbh⟩⟩
        · obtain ⟨q, hq, hcase⟩ := ih rest hrest b hbr
          exact ⟨q, List.mem_cons_of_mem p hq, hcase⟩
      next => exact absurd hb (by simp)
    next => exact absurd hb (by simp)

/-- The player list after a successful `_remove_player`. -/
theorem removePlayer_players (w : World) (p : Pl) (w1 : World)
    (h : removePlayer w p = .ok w1) :
    w1.game.players = w.game.players.erase p := by
  unfold removePlayer at h
  split at h
  · injection h with h
    subst h
    rfl
  · cases h

/-- C3, amended: when a HiddenShown round eliminates a player, the
leftover pool passed to the next state is gathered from the remaining
players only — every token in it is a remaining player's shown or
hidden token, and the eliminated player's allocation is excluded. -/
theorem c3_amended (w : World) (hs : HSState) (loser : Pl) (s : Seeds)
    (h : exceptOk (hsStartNext w hs loser s) = true) :
    ∃ balls : List Ball,
      hsGetBallList hs ((w.game.players.erase loser)) = .ok balls ∧
      ∀ b ∈ balls, ∃ p ∈ w.game.players.erase loser,
        (∃ l, dictGet hs.shown_balls p = some l ∧ b ∈ l) ∨
        (∃ l, dictGet hs.hidden_balls p = some l ∧ b ∈ l) := by
  unfold hsStartNext at h
  cases hrem : removePlayer w loser with
  | error e =>
    rw [hrem] at h
    simp [exceptOk] at h
  | ok w1 =>
    rw [hrem] at h
    simp only [exbind_ok] at h
    rw [removePlayer_players w loser w1 hrem] at h
    cases hbl : hsGetBallList hs (w.game.players.erase loser) with
    | error e =>
      rw [hbl] at h
      simp [exceptOk] at h
    | ok balls =>
      exact ⟨balls, rfl, hsGetBallList_mem hs _ balls hbl⟩

/-- C3, witness for the amended theorem: the vote-free elimination of
player 0 from the concrete demo round-1 state succeeds, so the theorem
applies there. -/
theorem c3_amended_witness :
    ∃ balls : List Ball,
      hsGetBallList
        ⟨1,
          [(0, [.cash 10, .cash 15]), (1, [.cash 30, .cash 40]),
           (2, [.cash 70, .cash 75]), (3, [.killer, .killer])],
          [(0, [.cash 20, .cash 25]), (1, [.cash 50, .cash 60]),
           (2, [.cash 80, .cash 90]), (3, [.killer, .killer])],
          [0, 1, 2, 3], []⟩
        (([0, 1, 2, 3] : List Pl).erase 0) = .ok balls ∧
      ∀ b ∈ balls, ∃ p ∈ ([0, 1, 2, 3] : List Pl).erase 0,
        (∃ l, dictGet
          ([(0, [.cash 10, .cash 15]), (1, [.cash 30, .cash 40]),
            (2, [.cash 70, .cash 75]), (3, [.killer, .killer])] :
              List (Pl × List Ball)) p = some l ∧ b ∈ l) ∨
        (∃ l, dictGet
          ([(0, [.cash 20, .cash 25]), (1, [.cash 50, .cash 60]),
            (2, [.cash 80, .cash 90]), (3, [.killer, .killer])] :
              List (Pl × List Ball)) p = some l ∧ b ∈ l) :=
  c3_amended
    { game :=
      { host := 0
        state := .waiting
        players := [0, 1, 2, 3]
        channel_messages := []
        dms := fun _ => []
        machine_balls := generate_pool
        finished := false
        results := [] }
      curr := fun q => if q ≤ 3 then .this else .null }
    ⟨1,
      [(0, [.cash 10, .cash 15]), (1, [.cash 30, .cash 40]),
       (2, [.cash 70, .cash 75]), (3, [.killer, .killer])],
      [(0, [.cash 20, .cash 25]), (1, [.cash 50, .cash 60]),
       (2, [.cash 80, .cash 90]), (3, [.killer, .killer])],
      [0, 1, 2, 3], []⟩
    0 zeroSeeds (by with_unfolding_all decide)

/-! ### Claim C1: the two-player split/steal resolution matrix -/

/-- The operation by which a player submits a split/steal choice. -/
def ssOp (p : Pl) : SSAction → Op
  | .split => .split p
  | .steal => .steal p

/-- C1: with exactly two seated players in the Split/Steal state, once
the second player submits their choice the session resolves: both steal
pays nobody (the results map is untouched); exactly one steal pays the
stealer the full prize; both split pays each exactly `prize // 2`
(floor division, equal amounts); and the session transitions to
Finished with the finished flag set. -/
theorem c1_resolution_matrix (w : World) (ss : SSState) (a b : Pl)
    (act1 act2 : SSAction) (s : Seeds)
    (hstate : w.game.state = .splitSteal ss)
    (hplayers : w.game.players = [a, b])
    (hab : a ≠ b)
    (hcurr : w.curr b = .this)
    (hacts : ss.actions = [(a, act1)]) :
    ∃ w2, step w (ssOp b act2) s = .ok (w2, .round4_action_response) ∧
      w2.game.finished = true ∧
      w2.game.state = .finished ∧
      w2.game.players = [] ∧
      w2.game.results =
        (match act1, act2 with
          | .steal, .steal => w.game.results
          | .steal, .split => dictSet w.game.results a ss.prize
          | .split, .steal => dictSet w.game.results b ss.prize
          | .split, .split =>
            dictSet (dictSet w.game.results a (Int.fdiv ss.prize 2)) b
              (Int.fdiv ss.prize 2)) := by
  have hba : (a == b) = false := by
    simp only [beq_eq_false_iff_ne, ne_eq]
    exact hab
  have hmem' : dictMem [(a, act1)] b = false := by
    simp [dictMem, dictGet, List.find?_cons, List.find?_nil, hba]
  have hmem : dictMem ss.actions b = false := by
    rw [hacts]
    exact hmem'
  have hstep : step w (ssOp b act2) s = ssHandleAction w ss b act2 := by
    cases act2 <;> simp [step, ssOp, hstate]
  rw [hstep]
  unfold ssHandleAction
  rw [show require_playing w b true = none by simp [require_playing, hcurr]]
  rw [hmem]
  simp only [Bool.false_eq_true, if_false]
  have hacts2 : dictSet ss.actions b act2 = [(a, act1), (b, act2)] := by
    rw [hacts]
    simp [dictSet, hmem']
  have hlen : (dictSet ss.actions b act2).length = (sendChannel w (.round4_action b)).game.players.length := by
    rw [hacts2]
    simp [sendChannel, hplayers]
  rw [if_pos hlen]
  unfold ssFinishGame
  have hply : (sendChannel w (.round4_action b)).game.players = [a, b] := by
    simp [sendChannel, hplayers]
  rw [hply]
  cases act1 <;> cases act2 <;>
    simp [hacts2, mkFinished, sendChannel, setState, dictGet, List.find?, hba,
      hplayers, Int.fdiv]

/-- A two-player Split/Steal world in which player 0 has already chosen
steal, used to witness the resolution matrix. -/
def splitStealWorld : World :=
  { game :=
    { host := 0
      state := .splitSteal ⟨[(0, .steal)], 101⟩
      players := [0, 1]
      channel_messages := []
      dms := fun _ => []
      machine_balls := []
      finished := false
      results := [(0, 0), (1, 0)] }
    curr := fun q => if q ≤ 1 then .this else .null }

/-- C1, witness: player 1 splits against player 0's steal on a prize of
101, so player 0 is paid the full prize and the session finishes. -/
theorem c1_resolution_matrix_witness :
    ∃ w2, step splitStealWorld (ssOp 1 .split) zeroSeeds =
        .ok (w2, .round4_action_response) ∧
      w2.game.finished = true ∧
      w2.game.state = .finished ∧
      w2.game.players = [] ∧
      w2.game.results = dictSet splitStealWorld.game.results 0 101 :=
  c1_resolution_matrix splitStealWorld ⟨[(0, .steal)], 101⟩ 0 1 .steal .split zeroSeeds
    rfl rfl (by decide) rfl rfl

/-! ### Claim C7: rejected operations leave the world byte-identical -/

/-- C7: every enumerated rejection — join while listed, join while
busy, vote while already voted, vote for self, vote for a
non-candidate, pick out of turn, pick with an index outside
`1..pool size`, and a repeated split/steal choice — returns the error
response together with the *unchanged* world, so the broadcast queue,
every per-player private queue, the vote tallies, the machine pool and
all round-local ball pools are identical to before the call. -/
theorem c7_rejected_ops_frame :
    (∀ (w : World) (p : Pl) (s : Seeds), w.game.state = .waiting →
        p ∈ w.game.players →
        step w (.join p) s = .ok (w, .err_in_game)) ∧
    (∀ (w : World) (p : Pl) (s : Seeds), w.game.state = .waiting →
        p ∉ w.game.players → w.curr p ≠ .null →
        step w (.join p) s = .ok (w, .err_in_other_game)) ∧
    (∀ (w : World) (hs : HSState) (p t : Pl) (s : Seeds),
        w.game.state = .hiddenShown hs → dictMem hs.votes p = true →
        step w (.vote p t) s = .ok (w, .err_voted)) ∧
    (∀ (w : World) (hs : HSState) (p : Pl) (s : Seeds),
        w.game.state = .hiddenShown hs → dictMem hs.votes p = false →
        step w (.vote p p) s = .ok (w, .err_vote_self)) ∧
    (∀ (w : World) (hs : HSState) (p t : Pl) (s : Seeds),
        w.game.state = .hiddenShown hs → dictMem hs.votes p = false → p ≠ t →
        w.curr p = .this → w.curr t = .this → t ∉ hs.vote_candidates →
        step w (.vote p t) s = .ok (w, .err_cant_vote)) ∧
    (∀ (w : World) (bw : BWState) (p q : Pl) (i : ℤ) (s : Seeds),
        w.game.state = .binWin bw → w.curr p = .this →
        w.game.players[bw.player_id]? = some q → p ≠ q →
        step w (.pick p i) s = .ok (w, .err_not_picking)) ∧
    (∀ (w : World) (bw : BWState) (p : Pl) (i : ℤ) (s : Seeds),
        w.game.state = .binWin bw → w.curr p = .this →
        w.game.players[bw.player_id]? = some p →
        ¬ (1 ≤ i ∧ i ≤ (bw.available_balls.length : ℤ)) →
        step w (.pick p i) s = .ok (w, .err_ball_invalid)) ∧
    (∀ (w : World) (ss : SSState) (p : Pl) (a : SSAction) (s : Seeds),
        w.game.state = .splitSteal ss → w.curr p = .this →
        dictMem ss.actions p = true →
        step w (ssOp p a) s = .ok (w, .err_action_done)) := by
  refine ⟨?_, ?_, ?_, ?_, ?_, ?_, ?_, ?_⟩
  · intro w p s hstate hmem
    simp [step, hstate, waitingJoin, hmem]
  · intro w p s hstate hmem hbusy
    simp [step, hstate, waitingJoin, hmem, hbusy]
  · intro w hs p t s hstate hvoted
    simp [step, hstate, hsVote, hvoted]
  · intro w hs p s hstate hvoted
    simp [step, hstate, hsVote, hvoted]
  · intro w hs p t s hstate hvoted hpt hp ht hcand
    simp [step, hstate, hsVote, hvoted, hpt, require_playing, hp, ht, hcand]
  · intro w bw p q i s hstate hp hq hpq
    simp [step, hstate, bwPick, require_playing, hp, hq, hpq]
  · intro w bw p i s hstate hp hq hidx
    simp [step, hstate, bwPick, require_playing, hp, hq]
    intro h1 h2
    exact absurd ⟨h1, by omega⟩ hidx
  · intro w ss p a s hstate hp hdone
    cases a <;> simp [step, ssOp, hstate, ssHandleAction, require_playing, hp, hdone]

/-- A waiting world in which player 7 is busy in another game. -/
def busyWorld : World := initWorld 0 (fun q => if q = 7 then .other else .null)

/-- A four-player round-1 world in which player 0 has already voted and
the tie-break candidates are players 0, 1, 2. -/
def hsVoteWorld : World :=
  { game :=
    { host := 0
      state := .hiddenShown ⟨1, [], [], [0, 1, 2], [(0, 1)]⟩
      players := [0, 1, 2, 3]
      channel_messages := []
      dms := fun _ => []
      machine_balls := []
      finished := false
      results := [(0, 0), (1, 0), (2, 0), (3, 0)] }
    curr := fun q => if q ≤ 3 then .this else .null }

/-- A two-player Bin/Win world where player 0 is to bin from a
two-ball pool. -/
def bwWorld : World :=
  { game :=
    { host := 0
      state := .binWin ⟨.bin, 0, [], [Ball.cash 10, Ball.killer]⟩
      players := [0, 1]
      channel_messages := []
      dms := fun _ => []
      machine_balls := []
      finished := false
      results := [(0, 0), (1, 0)] }
    curr := fun q => if q ≤ 1 then .this else .null }

/-- C7, witness: each of the eight enumerated rejections, exercised on
a concrete world, returns that world unchanged with the error
message. -/
theorem c7_rejected_ops_frame_witness :
    step demoWorld (.join 0) zeroSeeds = .ok (demoWorld, .err_in_game) ∧
    step busyWorld (.join 7) zeroSeeds = .ok (busyWorld, .err_in_other_game) ∧
    step hsVoteWorld (.vote 0 1) zeroSeeds = .ok (hsVoteWorld, .err_voted) ∧
    step hsVoteWorld (.vote 1 1) zeroSeeds = .ok (hsVoteWorld, .err_vote_self) ∧
    step hsVoteWorld (.vote 1 3) zeroSeeds = .ok (hsVoteWorld, .err_cant_vote) ∧
    step bwWorld (.pick 1 1) zeroSeeds = .ok (bwWorld, .err_not_picking) ∧
    step bwWorld (.pick 0 5) zeroSeeds = .ok (bwWorld, .err_ball_invalid) ∧
    step splitStealWorld (ssOp 0 .steal) zeroSeeds =
      .ok (splitStealWorld, .err_action_done) :=
  ⟨c7_rejected_ops_frame.1 demoWorld 0 zeroSeeds rfl (by decide),
   c7_rejected_ops_frame.2.1 busyWorld 7 zeroSeeds rfl (by decide) (by decide),
   c7_rejected_ops_frame.2.2.1 hsVoteWorld ⟨1, [], [], [0, 1, 2], [(0, 1)]⟩ 0 1
     zeroSeeds rfl (by decide),
   c7_rejected_ops_frame.2.2.2.1 hsVoteWorld ⟨1, [], [], [0, 1, 2], [(0, 1)]⟩ 1
     zeroSeeds rfl (by decide),
   c7_rejected_ops_frame.2.2.2.2.1 hsVoteWorld ⟨1, [], [], [0, 1, 2], [(0, 1)]⟩ 1 3
     zeroSeeds rfl (by decide) (by decide) rfl rfl (by decide),
   c7_rejected_ops_frame.2.2.2.2.2.1 bwWorld ⟨.bin, 0, [], [Ball.cash 10, Ball.killer]⟩
     1 0 1 zeroSeeds rfl rfl rfl (by decide),
   c7_rejected_ops_frame.2.2.2.2.2.2.1 bwWorld ⟨.bin, 0, [], [Ball.cash 10, Ball.killer]⟩
     0 5 zeroSeeds rfl rfl rfl (by decide),
   c7_rejected_ops_frame.2.2.2.2.2.2.2 splitStealWorld ⟨[(0, .steal)], 101⟩ 0 .steal
     zeroSeeds rfl rfl (by decide)⟩

/-! ### Claim C2: the numeric semantics of `round(prize / 10)` -/

theorem nlog2Aux_spec :
    ∀ (fuel n : Nat), 1 ≤ n → n ≤ fuel →
      2 ^ nlog2Aux fuel n ≤ n ∧ n < 2 ^ (nlog2Aux fuel n + 1) := by
  intro fuel
  induction fuel with
  | zero => intro n h1 h2; omega
  | succ fuel ih =>
    intro n h1 h2
    unfold nlog2Aux
    by_cases hn : n ≤ 1
    · have : n = 1 := by omega
      subst this
      simp
    · rw [if_neg hn]
      have hm1 : 1 ≤ n / 2 := by omega
      have hm2 : n / 2 ≤ fuel := by omega
      obtain ⟨ha, hb⟩ := ih (n / 2) hm1 hm2
      constructor
      · have : 2 ^ (nlog2Aux fuel (n / 2) + 1) = 2 * 2 ^ nlog2Aux fuel (n / 2) := by ring
        rw [this]
        omega
      · have : 2 ^ (nlog2Aux fuel (n / 2) + 1 + 1) = 2 * 2 ^ (nlog2Aux fuel (n / 2) + 1) := by ring
        rw [this]
        omega

theorem nlog2_spec (n : Nat) (h : 1 ≤ n) :
    2 ^ nlog2 n ≤ n ∧ n < 2 ^ (nlog2 n + 1) :=
  nlog2Aux_spec n n h (Nat.le_refl n)

theorem qLog2_spec (q : ℚ) (h : 0 < q) :
    (2 : ℚ) ^ qLog2 q ≤ q ∧ q < 2 ^ (qLog2 q + 1) := by
  have hnum : 0 < q.num := Rat.num_pos.mpr h
  have hd1 : 1 ≤ q.den := q.den_pos
  have ha1 : 1 ≤ q.num.toNat := by omega
  obtain ⟨hla, hlb⟩ := nlog2_spec q.num.toNat ha1
  obtain ⟨hda, hdb⟩ := nlog2_spec q.den hd1
  set la : ℤ := (nlog2 q.num.toNat : ℤ) with hla_def
  set ld : ℤ := (nlog2 q.den : ℤ) with hld_def
  have hq_eq : q = ((q.num.toNat : ℤ) : ℚ) / ((q.den : ℤ) : ℚ) := by
    rw [Int.toNat_of_nonneg hnum.le]
    push_cast
    exact (Rat.num_div_den q).symm
  have hdenQ : (0 : ℚ) < ((q.den : ℤ) : ℚ) := by
    push_cast
    exact_mod_cast q.den_pos
  have hcast_a_lo : (2 : ℚ) ^ la ≤ ((q.num.toNat : ℤ) : ℚ) := by
    rw [hla_def, zpow_natCast]
    push_cast
    exact_mod_cast hla
  have hcast_a_hi : ((q.num.toNat : ℤ) : ℚ) < 2 ^ (la + 1) := by
    rw [hla_def, show ((nlog2 q.num.toNat : ℤ) + 1) = ((nlog2 q.num.toNat + 1 : ℕ) : ℤ) by
      push_cast; ring, zpow_natCast]
    push_cast
    exact_mod_cast hlb
  have hcast_d_lo : (2 : ℚ) ^ ld ≤ ((q.den : ℤ) : ℚ) := by
    rw [hld_def, zpow_natCast]
    push_cast
    exact_mod_cast hda
  have hcast_d_hi : ((q.den : ℤ) : ℚ) < 2 ^ (ld + 1) := by
    rw [hld_def, show ((nlog2 q.den : ℤ) + 1) = ((nlog2 q.den + 1 : ℕ) : ℤ) by
      push_cast; ring, zpow_natCast]
    push_cast
    exact_mod_cast hdb
  have h2 : (0 : ℚ) < 2 := by norm_num
  have hq_lo : (2 : ℚ) ^ (la - ld - 1) < q := by
    rw [hq_eq, lt_div_iff₀ hdenQ]
    calc (2 : ℚ) ^ (la - ld - 1) * ((q.den : ℤ) : ℚ)
        < 2 ^ (la - ld - 1) * 2 ^ (ld + 1) := by
          exact mul_lt_mul_of_pos_left hcast_d_hi (zpow_pos h2 _)
      _ = 2 ^ la := by
          rw [← zpow_add₀ (ne_of_gt h2)]
          ring_nf
      _ ≤ ((q.num.toNat : ℤ) : ℚ) := hcast_a_lo
  have hq_hi : q < (2 : ℚ) ^ (la - ld + 1) := by
    rw [hq_eq, div_lt_iff₀ hdenQ]
    calc ((q.num.toNat : ℤ) : ℚ) < 2 ^ (la + 1) := hcast_a_hi
      _ = 2 ^ (la - ld + 1) * 2 ^ ld := by
          rw [← zpow_add₀ (ne_of_gt h2)]
          ring_nf
      _ ≤ 2 ^ (la - ld + 1) * ((q.den : ℤ) : ℚ) := by
          exact mul_le_mul_of_nonneg_left hcast_d_lo (le_of_lt (zpow_pos h2 _))
  unfold qLog2
  rw [← hla_def, ← hld_def]
  by_cases hcase : q < 2 ^ (la - ld)
  · rw [if_pos hcase]
    constructor
    · exact le_of_lt hq_lo
    · rw [show la - ld - 1 + 1 = la - ld by ring]
      exact hcase
  · rw [if_neg hcase]
    exact ⟨not_lt.mp hcase, hq_hi⟩

theorem roundHalfEven_intCast (k : ℤ) : roundHalfEven (k : ℚ) = k := by
  unfold roundHalfEven
  rw [Int.floor_intCast]
  norm_num

theorem abs_roundHalfEven_sub (q : ℚ) : |(roundHalfEven q : ℚ) - q| ≤ 1 / 2 := by
  have hfl : (⌊q⌋ : ℚ) ≤ q := Int.floor_le q
  have hfu : q < ⌊q⌋ + 1 := Int.lt_floor_add_one q
  unfold roundHalfEven
  by_cases h1 : q - ⌊q⌋ < 1 / 2
  · rw [if_pos h1]
    rw [abs_le]
    constructor <;> push_cast <;> linarith
  · rw [if_neg h1]
    by_cases h2 : 1 / 2 < q - ⌊q⌋
    · rw [if_pos h2]
      rw [abs_le]
      constructor <;> push_cast <;> linarith
    · rw [if_neg h2]
      have heq : q - ⌊q⌋ = 1 / 2 := le_antisymm (not_lt.mp h2) (not_lt.mp h1)
      by_cases h3 : ⌊q⌋ % 2 = 0 <;> [rw [if_pos h3]; rw [if_neg h3]] <;>
        rw [abs_le] <;> constructor <;> push_cast <;> linarith

theorem roundHalfEven_eq_of_close (m : ℤ) (q : ℚ)
    (h1 : (m : ℚ) - 1 / 2 < q) (h2 : q < (m : ℚ) + 1 / 2) :
    roundHalfEven q = m := by
  unfold roundHalfEven
  by_cases hq : (m : ℚ) ≤ q
  · have hfl : ⌊q⌋ = m := by
      rw [Int.floor_eq_iff]
      constructor
      · exact_mod_cast hq
      · push_cast
        linarith
    rw [hfl, if_pos]
    push_cast
    linarith
  · have hfl : ⌊q⌋ = m - 1 := by
      rw [Int.floor_eq_iff]
      constructor
      · push_cast
        linarith
      · push_cast
        linarith
    rw [hfl]
    have hr : 1 / 2 < q - ((m - 1 : ℤ) : ℚ) := by
      push_cast
      linarith
    rw [if_neg (by linarith), if_pos hr]
    ring

theorem floatRound_eq_of_grid (q : ℚ) (hq : q ≠ 0) (k : ℤ)
    (h : q = (k : ℚ) * 2 ^ (qLog2 |q| - 52)) : floatRound q = q := by
  unfold floatRound
  rw [if_neg hq]
  set E : ℤ := qLog2 |q| - 52 with hE
  have h2 : ((2 : ℚ) ^ E) ≠ 0 := ne_of_gt (zpow_pos (by norm_num) _)
  have hdiv : q / 2 ^ E = (k : ℚ) := by
    rw [h, mul_div_assoc, div_self h2, mul_one]
  rw [hdiv, roundHalfEven_intCast, ← h]

theorem abs_floatRound_sub (q : ℚ) (hq : q ≠ 0) :
    |floatRound q - q| ≤ 2 ^ (qLog2 |q| - 53) := by
  unfold floatRound
  rw [if_neg hq]
  have hpos : (0 : ℚ) < 2 ^ (qLog2 |q| - 52) := zpow_pos (by norm_num) _
  have hbase := abs_roundHalfEven_sub (q / 2 ^ (qLog2 |q| - 52))
  have key : (roundHalfEven (q / 2 ^ (qLog2 |q| - 52)) : ℚ) * 2 ^ (qLog2 |q| - 52) - q =
      ((roundHalfEven (q / 2 ^ (qLog2 |q| - 52)) : ℚ) - q / 2 ^ (qLog2 |q| - 52)) *
        2 ^ (qLog2 |q| - 52) := by
    field_simp
  rw [key, abs_mul, abs_of_pos hpos]
  calc |(roundHalfEven (q / 2 ^ (qLog2 |q| - 52)) : ℚ) - q / 2 ^ (qLog2 |q| - 52)| *
        2 ^ (qLog2 |q| - 52)
      ≤ 1 / 2 * 2 ^ (qLog2 |q| - 52) := by
        exact mul_le_mul_of_nonneg_right hbase (le_of_lt hpos)
    _ = 2 ^ (qLog2 |q| - 53) := by
        have hdouble : (2 : ℚ) ^ (qLog2 |q| - 52) = 2 ^ (qLog2 |q| - 53) * 2 ^ (1 : ℤ) := by
          rw [← zpow_add₀ (by norm_num : (2 : ℚ) ≠ 0)]
          ring_nf
        rw [zpow_one] at hdouble
        linarith

/-- For totals up to `2^53` the Python float computation
`round(prize / 10)` agrees with exact round-half-to-even of the true
quotient: the binary64 quotient is exact on ties and close enough
elsewhere. -/
theorem pyRoundDiv10_eq_exact (n : ℤ) (h0 : 0 ≤ n) (h1 : n ≤ 2 ^ 53) :
    pyRoundDiv10 n = roundHalfEven ((n : ℚ) / 10) := by
  by_cases hn0 : n = 0
  · subst hn0
    with_unfolding_all decide
  · have hn1 : 1 ≤ n := by omega
    have hnQ : (1 : ℚ) ≤ (n : ℚ) := by exact_mod_cast hn1
    have hqpos : 0 < (n : ℚ) / 10 := by positivity
    have habs : |(n : ℚ) / 10| = (n : ℚ) / 10 := abs_of_pos hqpos
    have hq50 : (n : ℚ) / 10 < 2 ^ (50 : ℤ) := by
      have h2 : ((2 : ℚ) ^ (50 : ℤ)) = ((2 ^ 50 : ℕ) : ℚ) := by
        rw [show ((50 : ℤ)) = ((50 : ℕ) : ℤ) by norm_num, zpow_natCast]
        push_cast
        ring
      rw [h2, div_lt_iff₀ (by norm_num : (0 : ℚ) < 10)]
      have hn53 : (n : ℚ) ≤ ((2 ^ 53 : ℤ) : ℚ) := by exact_mod_cast h1
      push_cast at hn53
      norm_num at hn53 ⊢
      linarith
    have hlog49 : qLog2 ((n : ℚ) / 10) ≤ 49 := by
      obtain ⟨hlo, _⟩ := qLog2_spec _ hqpos
      by_contra hcon
      push_neg at hcon
      have hge : (2 : ℚ) ^ (50 : ℤ) ≤ 2 ^ qLog2 ((n : ℚ) / 10) :=
        zpow_le_zpow_right₀ (by norm_num) hcon
      linarith
    by_cases hmod : n % 10 = 5
    · -- exact tie: the quotient is representable, so the float division
      -- is exact and both roundings coincide
      have hEle : qLog2 |(n : ℚ) / 10| - 52 ≤ -3 := by
        rw [habs]
        omega
      set E : ℤ := qLog2 |(n : ℚ) / 10| - 52 with hEdef
      set t : ℕ := (-E - 1).toNat with htdef
      have htE : (t : ℤ) = -E - 1 := by omega
      set k : ℤ := n / 10 with hkdef
      have hnk : (n : ℚ) = 10 * (k : ℚ) + 5 := by
        have hsplit := Int.ediv_add_emod n 10
        rw [hmod] at hsplit
        exact_mod_cast hsplit.symm
      have hpow : (2 : ℚ) ^ (t : ℕ) * (2 : ℚ) ^ E = 1 / 2 := by
        rw [← zpow_natCast (2 : ℚ) t, ← zpow_add₀ (by norm_num : (2 : ℚ) ≠ 0),
          show (t : ℤ) + E = -1 by omega,
          show ((-1 : ℤ)) = -((1 : ℕ) : ℤ) by norm_num, zpow_neg, zpow_natCast]
        norm_num
      have hk : ((n : ℚ) / 10) = (((2 * k + 1) * 2 ^ t : ℤ) : ℚ) * 2 ^ E := by
        push_cast
        rw [hnk, mul_assoc, hpow]
        ring
      have hfr : floatRound ((n : ℚ) / 10) = (n : ℚ) / 10 :=
        floatRound_eq_of_grid _ (ne_of_gt hqpos) _ hk
      unfold pyRoundDiv10
      rw [hfr]
    · -- not a tie: the float error (at most 1/16) cannot move the
      -- quotient across a rounding boundary (at distance at least 1/10)
      set m : ℤ := roundHalfEven ((n : ℚ) / 10) with hm
      have hclose : |(m : ℚ) - (n : ℚ) / 10| ≤ 1 / 2 := abs_roundHalfEven_sub _
      have habs10 : ∀ x : ℚ, |(10 : ℚ) * x| = 10 * |x| := by
        intro x
        rw [abs_mul, abs_of_pos (show (0 : ℚ) < 10 by norm_num)]
      have hdiff : (10 : ℚ) * ((m : ℚ) - (n : ℚ) / 10) = 10 * (m : ℚ) - (n : ℚ) := by
        field_simp
        ring
      have hint : |10 * m - n| ≤ 5 := by
        have hQ : |(10 : ℚ) * (m : ℚ) - (n : ℚ)| ≤ 5 := by
          rw [← hdiff, habs10]
          linarith
        exact_mod_cast hQ
      have hint4 : |10 * m - n| ≤ 4 := by
        rcases abs_le.mp hint with ⟨hl, hr⟩
        rw [abs_le]
        constructor <;> omega
      have hclose4 : |(m : ℚ) - (n : ℚ) / 10| ≤ 2 / 5 := by
        have hQ : |(10 : ℚ) * (m : ℚ) - (n : ℚ)| ≤ 4 := by exact_mod_cast hint4
        rw [← hdiff, habs10] at hQ
        linarith
      have hfr_err : |floatRound ((n : ℚ) / 10) - (n : ℚ) / 10| ≤ 1 / 16 := by
        have herr := abs_floatRound_sub ((n : ℚ) / 10) (ne_of_gt hqpos)
        have hexp : qLog2 |(n : ℚ) / 10| - 53 ≤ -4 := by
          rw [habs]
          omega
        have hmono : (2 : ℚ) ^ (qLog2 |(n : ℚ) / 10| - 53) ≤ 2 ^ (-4 : ℤ) :=
          zpow_le_zpow_right₀ (by norm_num) hexp
        have h16 : (2 : ℚ) ^ (-4 : ℤ) = 1 / 16 := by
          rw [show ((-4 : ℤ)) = -((4 : ℕ) : ℤ) by norm_num, zpow_neg, zpow_natCast]
          norm_num
        rw [h16] at hmono
        linarith
      unfold pyRoundDiv10
      apply roundHalfEven_eq_of_close
      · rcases abs_le.mp hclose4 with ⟨h4l, h4r⟩
        rcases abs_le.mp hfr_err with ⟨hel, her⟩
        linarith
      · rcases abs_le.mp hclose4 with ⟨h4l, h4r⟩
        rcases abs_le.mp hfr_err with ⟨hel, her⟩
        linarith

/-- C2, counterexample: `KillerBall.apply` computes Python's
`round(prize / 10)`, which goes through a binary64 division; at the
running total 11258999068426246 the float quotient lands exactly on
…624.5 and ties to the even …624, while exact round-half-to-even of the
true quotient …624.6 gives …625.  So the killer rule does not reproduce
exact round-half-to-even for every non-negative running total. -/
theorem c2_counterexample :
    Ball.apply Ball.killer 11258999068426246 = 1125899906842624 ∧
    roundHalfEven ((11258999068426246 : ℚ) / 10) = 1125899906842625 ∧
    (1125899906842624 : ℤ) ≠ 1125899906842625 := by
  refine ⟨?_, ?_, ?_⟩ <;> with_unfolding_all decide

/-- C2, amended: `calculate_total` folds the token list left-to-right
from 0, cash adds its value, and the killer token applies Python's
`round(total / 10)` — which agrees with exact round-half-to-even
semantics for every non-negative running total up to `2^53` (but not
beyond, see the counterexample); in particular the two quoted examples
evaluate to 10 and 15. -/
theorem c2_amended :
    (∀ n : ℤ, 0 ≤ n → n ≤ 2 ^ 53 →
      Ball.apply Ball.killer n = roundHalfEven ((n : ℚ) / 10)) ∧
    Ball.calculate_total [] = 0 ∧
    (∀ (balls : List Ball) (b : Ball),
      Ball.calculate_total (balls ++ [b]) = b.apply (Ball.calculate_total balls)) ∧
    Ball.calculate_total [Ball.cash 100, Ball.killer] = 10 ∧
    Ball.calculate_total [Ball.cash 100, Ball.cash 50, Ball.killer] = 15 := by
  refine ⟨?_, rfl, ?_, ?_, ?_⟩
  · intro n h0 h1
    exact pyRoundDiv10_eq_exact n h0 h1
  · intro balls b
    simp [Ball.calculate_total]
  · with_unfolding_all decide
  · with_unfolding_all decide

/-- C2, witness for the amended theorem: the killer rule agrees with
exact rounding at the example total 100, and the fold property at a
concrete list. -/
theorem c2_amended_witness :
    Ball.apply Ball.killer 100 = roundHalfEven ((100 : ℚ) / 10) ∧
    Ball.calculate_total ([Ball.cash 100] ++ [Ball.killer]) =
      Ball.killer.apply (Ball.calculate_total [Ball.cash 100]) :=
  ⟨c2_amended.1 100 (by norm_num) (by norm_num),
   c2_amended.2.2.1 [Ball.cash 100] Ball.killer⟩

/-! ### The session invariant

The membership invariant (claim C10), the per-round token-count
invariant (claim C8) and the results-zero invariant (claim C5) are
proved together by induction over `Reach`. -/

/-- Every listed player's allocation entry exists and has the
configured shown/hidden size. -/
def ballCountsOk (players : List Pl) (hs : HSState) (sc hc : Nat) : Prop :=
  ∀ p ∈ players,
    (∃ l, dictGet hs.shown_balls p = some l ∧ l.length = sc) ∧
    (∃ l, dictGet hs.hidden_balls p = some l ∧ l.length = hc)

/-- The state-specific part of the session invariant. -/
def stateOk (w : World) : Prop :=
  match w.game.state with
  | .waiting => w.game.machine_balls.length = 100 ∧ w.game.players.length ≤ 3
  | .hiddenShown hs =>
      (hs.number = 1 ∧ w.game.players.length = 4 ∧
        w.game.machine_balls.length = 88 ∧
        ballCountsOk w.game.players hs four_shown_count four_hidden_count) ∨
      (hs.number = 2 ∧ w.game.players.length = 3 ∧
        w.game.machine_balls.length = 86 ∧
        ballCountsOk w.game.players hs three_shown_count three_hidden_count)
  | _ => True

/-- The session invariant. -/
def Inv (w : World) : Prop :=
  w.game.players.Nodup ∧
  (∀ q, w.curr q = .this ↔ q ∈ w.game.players) ∧
  (w.game.finished = false → ∀ e ∈ w.game.results, e.2 = 0) ∧
  (w.game.state = .finished ↔ w.game.finished = true) ∧
  (w.game.finished = true → w.game.players = []) ∧
  stateOk w

/-! #### Projection lemmas for the primitive world updates -/

@[simp] theorem sendChannel_players (w : World) (m : Msg) :
    (sendChannel w m).game.players = w.game.players := rfl
@[simp] theorem sendChannel_curr (w : World) (m : Msg) :
    (sendChannel w m).curr = w.curr := rfl
@[simp] theorem sendChannel_machine (w : World) (m : Msg) :
    (sendChannel w m).game.machine_balls = w.game.machine_balls := rfl
@[simp] theorem sendChannel_results (w : World) (m : Msg) :
    (sendChannel w m).game.results = w.game.results := rfl
@[simp] theorem sendChannel_finished (w : World) (m : Msg) :
    (sendChannel w m).game.finished = w.game.finished := rfl
@[simp] theorem sendChannel_state (w : World) (m : Msg) :
    (sendChannel w m).game.state = w.game.state := rfl

@[simp] theorem sendDM_players (w : World) (p : Pl) (m : Msg) :
    (sendDM w p m).game.players = w.game.players := rfl
@[simp] theorem sendDM_curr (w : World) (p : Pl) (m : Msg) :
    (sendDM w p m).curr = w.curr := rfl
@[simp] theorem sendDM_machine (w : World) (p : Pl) (m : Msg) :
    (sendDM w p m).game.machine_balls = w.game.machine_balls := rfl
@[simp] theorem sendDM_results (w : World) (p : Pl) (m : Msg) :
    (sendDM w p m).game.results = w.game.results := rfl
@[simp] theorem sendDM_finished (w : World) (p : Pl) (m : Msg) :
    (sendDM w p m).game.finished = w.game.finished := rfl
@[simp] theorem sendDM_state (w : World) (p : Pl) (m : Msg) :
    (sendDM w p m).game.state = w.game.state := rfl

@[simp] theorem setState_players (w : World) (g : GState) :
    (setState w g).game.players = w.game.players := rfl
@[simp] theorem setState_curr (w : World) (g : GState) :
    (setState w g).curr = w.curr := rfl
@[simp] theorem setState_machine (w : World) (g : GState) :
    (setState w g).game.machine_balls = w.game.machine_balls := rfl
@[simp] theorem setState_results (w : World) (g : GState) :
    (setState w g).game.results = w.game.results := rfl
@[simp] theorem setState_finished (w : World) (g : GState) :
    (setState w g).game.finished = w.game.finished := rfl
@[simp] theorem setState_state (w : World) (g : GState) :
    (setState w g).game.state = g := rfl

@[simp] theorem mkFinished_players (w : World) :
    (mkFinished w).game.players = [] := rfl
@[simp] theorem mkFinished_state (w : World) :
    (mkFinished w).game.state = .finished := rfl
@[simp] theorem mkFinished_finished (w : World) :
    (mkFinished w).game.finished = true := rfl
@[simp] theorem mkFinished_results (w : World) :
    (mkFinished w).game.results = w.game.results := rfl

/-- A world after a foldl of sends keeps players, back-references,
machine pool, results, finished flag and state. -/
theorem foldl_sendDM_eta (players : List Pl) (hd : List (Pl × List Ball)) :
    ∀ w : World,
      (players.foldl
        (fun wa p => sendDM wa p (.round12_hidden ((dictGet hd p).getD []))) w).game.players =
          w.game.players ∧
      (players.foldl
        (fun wa p => sendDM wa p (.round12_hidden ((dictGet hd p).getD []))) w).curr =
          w.curr ∧
      (players.foldl
        (fun wa p => sendDM wa p (.round12_hidden ((dictGet hd p).getD []))) w).game.machine_balls =
          w.game.machine_balls ∧
      (players.foldl
        (fun wa p => sendDM wa p (.round12_hidden ((dictGet hd p).getD []))) w).game.results =
          w.game.results ∧
      (players.foldl
        (fun wa p => sendDM wa p (.round12_hidden ((dictGet hd p).getD []))) w).game.finished =
          w.game.finished ∧
      (players.foldl
        (fun wa p => sendDM wa p (.round12_hidden ((dictGet hd p).getD []))) w).game.state =
          w.game.state := by
  induction players with
  | nil => intro w; exact ⟨rfl, rfl, rfl, rfl, rfl, rfl⟩
  | cons p ps ih =>
    intro w
    simpa using ih (sendDM w p (.round12_hidden ((dictGet hd p).getD [])))

/-! #### Specification lemmas for the primitive draws and constructions -/

@[simp] theorem dictGet_cons (k : Pl) (v : α) (d : List (Pl × α)) (q : Pl) :
    dictGet ((k, v) :: d) q = if k == q then some v else dictGet d q := by
  unfold dictGet
  cases hkq : (k == q) with
  | false =>
    rw [List.find?_cons_of_neg _ (by simp [hkq])]
    simp [hkq]
  | true =>
    rw [List.find?_cons_of_pos _ (by simp [hkq])]
    simp [hkq]

theorem pop_random_spec (l : List α) (r : Nat) (a : α) (l2 : List α)
    (h : pop_random l r = some (a, l2)) : l2.length + 1 = l.length := by
  unfold pop_random at h
  split at h
  next x hx =>
    injection h with h
    cases h
    have hlt : r % l.length < l.length := by
      rcases Nat.eq_zero_or_pos l.length with h0 | h0
      · rw [List.getElem?_eq_none (by omega)] at hx
        cases hx
      · exact Nat.mod_lt r h0
    simp [List.length_eraseIdx, hlt]
    omega
  next => cases h

theorem pop_random_isSome (l : List α) (r : Nat) (h : l ≠ []) :
    ∃ a l2, pop_random l r = some (a, l2) := by
  unfold pop_random
  have hlt : r % l.length < l.length := by
    have : 0 < l.length := List.length_pos.mpr h
    exact Nat.mod_lt r this
  have hsome := List.getElem?_eq_getElem hlt
  match hx : l[r % l.length]? with
  | some a => exact ⟨a, l.eraseIdx (r % l.length), rfl⟩
  | none => rw [hx] at hsome; cases hsome

theorem popRandomN_spec :
    ∀ (n : Nat) (l : List α) (s : Seeds) (as l2 : List α),
      popRandomN l n s = some (as, l2) → as.length = n ∧ l2.length + n = l.length := by
  intro n
  induction n with
  | zero =>
    intro l s as l2 h
    unfold popRandomN at h
    injection h with h
    injection h with h1 h2
    subst h1
    subst h2
    simp
  | succ n ih =>
    intro l s as l2 h
    unfold popRandomN at h
    split at h
    next a l' hpop =>
      split at h
      next as' l'' hrec =>
        injection h with h
        injection h with h1 h2
        subst h1
        subst h2
        obtain ⟨hlen1, hlen2⟩ := ih l' (shiftSeeds s 1) as' l'' hrec
        have := pop_random_spec l (s 0) a l' hpop
        constructor
        · simp [hlen1]
        · omega
      next => cases h
    next => cases h

theorem popRandomN_isSome :
    ∀ (n : Nat) (l : List α) (s : Seeds), n ≤ l.length →
      ∃ as l2, popRandomN l n s = some (as, l2) := by
  intro n
  induction n with
  | zero => intro l s _; exact ⟨[], l, rfl⟩
  | succ n ih =>
    intro l s hle
    have hne : l ≠ [] := by
      intro hcon
      subst hcon
      simp at hle
    obtain ⟨a, l2, hpop⟩ := pop_random_isSome l (s 0) hne
    have hlen := pop_random_spec l (s 0) a l2 hpop
    obtain ⟨as, l3, hrec⟩ := ih l2 (shiftSeeds s 1) (by omega)
    refine ⟨a :: as, l3, ?_⟩
    unfold popRandomN
    rw [hpop]
    dsimp only
    rw [hrec]

theorem hsAlloc_spec (sc hc : Nat) :
    ∀ (ps : List Pl) (balls : List Ball) (s : Seeds),
      (sc + hc) * ps.length ≤ balls.length →
      ∃ sh hd rest, hsAlloc sc hc ps balls s = .ok (sh, hd, rest) ∧
        rest.length + (sc + hc) * ps.length = balls.length ∧
        ∀ p ∈ ps,
          (∃ l, dictGet sh p = some l ∧ l.length = sc) ∧
          (∃ l, dictGet hd p = some l ∧ l.length = hc) := by
  intro ps
  induction ps with
  | nil =>
    intro balls s _
    refine ⟨[], [], balls, rfl, by simp, ?_⟩
    intro p hp
    simp at hp
  | cons p ps ih =>
    intro balls s hle
    have hball1 : sc ≤ balls.length := by
      have : (sc + hc) * (ps.length + 1) = (sc + hc) * ps.length + (sc + hc) := by ring
      simp only [List.length_cons] at hle
      omega
    obtain ⟨shp, b2, hpop1⟩ := popRandomN_isSome sc balls s (by
      simp only [List.length_cons] at hle
      nlinarith [Nat.zero_le ((sc + hc) * ps.length)])
    obtain ⟨hlen1a, hlen1b⟩ := popRandomN_spec sc balls s shp b2 hpop1
    obtain ⟨hdp, b3, hpop2⟩ := popRandomN_isSome hc b2 (shiftSeeds s sc) (by
      simp only [List.length_cons] at hle
      nlinarith [Nat.zero_le ((sc + hc) * ps.length)])
    obtain ⟨hlen2a, hlen2b⟩ := popRandomN_spec hc b2 (shiftSeeds s sc) hdp b3 hpop2
    have hrec_le : (sc + hc) * ps.length ≤ b3.length := by
      simp only [List.length_cons] at hle
      nlinarith
    obtain ⟨sh, hd, rest, hrec, hlen3, hmem⟩ :=
      ih b3 (shiftSeeds s (sc + hc)) hrec_le
    refine ⟨(p, shp) :: sh, (p, hdp) :: hd, rest, ?_, ?_, ?_⟩
    · unfold hsAlloc
      rw [hpop1]
      dsimp only
      rw [hpop2]
      dsimp only
      rw [hrec]
    · simp only [List.length_cons]
      have : (sc + hc) * (ps.length + 1) = (sc + hc) * ps.length + (sc + hc) := by ring
      omega
    · intro q hq
      rcases List.mem_cons.mp hq with hq | hq
      · subst hq
        exact ⟨⟨shp, by simp, hlen1a⟩, ⟨hdp, by simp, hlen2a⟩⟩
      · obtain ⟨⟨l1, hl1, hl1len⟩, ⟨l2, hl2, hl2len⟩⟩ := hmem q hq
        by_cases hpq : p = q
        · subst hpq
          exact ⟨⟨shp, by simp, hlen1a⟩, ⟨hdp, by simp, hlen2a⟩⟩
        · refine ⟨⟨l1, ?_, hl1len⟩, ⟨l2, ?_, hl2len⟩⟩ <;>
            rw [dictGet_cons, if_neg (by simpa using hpq)] <;> assumption

theorem hsGetBallList_ok_of_counts (hs : HSState) (sc hc : Nat) :
    ∀ ps : List Pl,
      (∀ p ∈ ps,
        (∃ l, dictGet hs.shown_balls p = some l ∧ l.length = sc) ∧
        (∃ l, dictGet hs.hidden_balls p = some l ∧ l.length = hc)) →
      ∃ balls, hsGetBallList hs ps = .ok balls ∧
        balls.length = (sc + hc) * ps.length := by
  intro ps
  induction ps with
  | nil => intro _; exact ⟨[], rfl, by simp⟩
  | cons p ps ih =>
    intro hmem
    obtain ⟨⟨l1, hl1, hl1len⟩, ⟨l2, hl2, hl2len⟩⟩ := hmem p (List.mem_cons_self p ps)
    obtain ⟨rest, hrest, hrestlen⟩ := ih (fun q hq => hmem q (List.mem_cons_of_mem p hq))
    refine ⟨l1 ++ l2 ++ rest, ?_, ?_⟩
    · unfold hsGetBallList
      rw [hl1, hl2]
      dsimp only
      rw [hrest]
    · simp only [List.length_append, List.length_cons, hl1len, hl2len, hrestlen]
      ring

/-- A successful HiddenShown construction: under the machine-size and
token-count preconditions the assertion holds, allocation succeeds, and
the resulting world keeps players, back-references, results and the
finished flag while the machine shrinks by the drawn count. -/
theorem mkHiddenShown_spec (w : World) (number : Nat) (initial : List Ball)
    (c k sc hc : Nat) (s : Seeds)
    (hmac : c ≤ w.game.machine_balls.length)
    (hcount : initial.length + c + k = (sc + hc) * w.game.players.length) :
    ∃ w2 sh hd,
      mkHiddenShown w number initial c k sc hc s =
        .ok (w2, .hiddenShown ⟨number, sh, hd, w.game.players, []⟩) ∧
      w2.game.players = w.game.players ∧
      w2.curr = w.curr ∧
      w2.game.results = w.game.results ∧
      w2.game.finished = w.game.finished ∧
      w2.game.state = w.game.state ∧
      w2.game.machine_balls.length = w.game.machine_balls.length - c ∧
      ballCountsOk w.game.players ⟨number, sh, hd, w.game.players, []⟩ sc hc := by
  obtain ⟨drawn, machine2, hpop⟩ := popRandomN_isSome c w.game.machine_balls s hmac
  obtain ⟨hdrawn, hmach2⟩ := popRandomN_spec c w.game.machine_balls s drawn machine2 hpop
  have hballs : (initial ++ drawn ++ List.replicate k Ball.killer).length =
      (sc + hc) * w.game.players.length := by
    simp [hdrawn]
    omega
  obtain ⟨sh, hd, rest, halloc, hrest, hmem⟩ :=
    hsAlloc_spec sc hc w.game.players (initial ++ drawn ++ List.replicate k Ball.killer)
      (shiftSeeds s c) (le_of_eq hballs.symm)
  unfold mkHiddenShown
  rw [hpop]
  dsimp only
  rw [if_neg (by rw [hballs]; exact fun hcon => hcon rfl)]
  rw [halloc]
  obtain ⟨he1, he2, he3, he4, he5, he6⟩ :=
    foldl_sendDM_eta w.game.players hd
      (sendChannel { w with game := { w.game with machine_balls := machine2 } }
        (.round12_announce number sh))
  refine ⟨_, sh, hd, rfl, ?_, ?_, ?_, ?_, ?_, ?_, ?_⟩
  · rw [he1]; rfl
  · rw [he2]; rfl
  · rw [he4]; rfl
  · rw [he5]; rfl
  · rw [he6]; rfl
  · rw [he3]
    show machine2.length = _
    omega
  · exact hmem

/-- Membership facts after `_add_player`. -/
theorem addPlayer_memInv (w : World) (p : Pl)
    (hnodup : w.game.players.Nodup)
    (hiff : ∀ q, w.curr q = .this ↔ q ∈ w.game.players)
    (hnp : p ∉ w.game.players) :
    (addPlayer w p).game.players.Nodup ∧
    (∀ q, (addPlayer w p).curr q = .this ↔ q ∈ (addPlayer w p).game.players) := by
  constructor
  · show (w.game.players ++ [p]).Nodup
    simp [List.nodup_append, hnodup, hnp]
  · intro q
    show (if q = p then GamePtr.this else w.curr q) = .this ↔ q ∈ w.game.players ++ [p]
    by_cases hq : q = p
    · subst hq
      simp
    · rw [if_neg hq]
      simp only [List.mem_append, List.mem_singleton]
      rw [hiff q]
      constructor
      · exact fun h => Or.inl h
      · rintro (h | h)
        · exact h
        · exact absurd h hq

/-- The complete description of a successful `_remove_player`. -/
theorem removePlayer_eta (w : World) (p : Pl) (w1 : World)
    (h : removePlayer w p = .ok w1) :
    w1.game.players = w.game.players.erase p ∧
    w1.curr = (fun q => if q = p then .null else w.curr q) ∧
    w1.game.machine_balls = w.game.machine_balls ∧
    w1.game.results = w.game.results ∧
    w1.game.finished = w.game.finished ∧
    w1.game.state = w.game.state ∧
    p ∈ w.game.players := by
  unfold removePlayer at h
  split at h
  next hmem =>
    injection h with h
    subst h
    exact ⟨rfl, rfl, rfl, rfl, rfl, rfl, hmem⟩
  next => cases h

/-- Membership facts after a successful `_remove_player`. -/
theorem removePlayer_memInv (w : World) (p : Pl) (w1 : World)
    (hnodup : w.game.players.Nodup)
    (hiff : ∀ q, w.curr q = .this ↔ q ∈ w.game.players)
    (h : removePlayer w p = .ok w1) :
    w1.game.players.Nodup ∧
    (∀ q, w1.curr q = .this ↔ q ∈ w1.game.players) := by
  obtain ⟨he1, he2, _, _, _, _, hmem⟩ := removePlayer_eta w p w1 h
  constructor
  · rw [he1]
    exact hnodup.erase p
  · intro q
    rw [he1, he2]
    dsimp only
    by_cases hq : q = p
    · subst hq
      simp only [if_pos rfl]
      constructor
      · intro hcon
        cases hcon
      · intro hcon
        exact absurd (hnodup.mem_erase_iff.mp hcon).1 (fun hne => hne rfl)
    · rw [if_neg hq, hiff q, hnodup.mem_erase_iff]
      constructor
      · exact fun hh => ⟨hq, hh⟩
      · exact fun hh => hh.2

/-- Membership facts after `FinishedState.__init__`. -/
theorem mkFinished_memInv (w : World)
    (hiff : ∀ q, w.curr q = .this ↔ q ∈ w.game.players) :
    (mkFinished w).game.players.Nodup ∧
    (∀ q, (mkFinished w).curr q = .this ↔ q ∈ (mkFinished w).game.players) := by
  constructor
  · exact List.nodup_nil
  · intro q
    show (if q ∈ w.game.players then GamePtr.null else w.curr q) = .this ↔ q ∈ ([] : List Pl)
    by_cases hq : q ∈ w.game.players
    · rw [if_pos hq]
      simp
    · rw [if_neg hq]
      rw [hiff q]
      simp [hq]

/-! #### Handler-level facts -/

theorem bwAnnounce_eta (w : World) (st : BWState) (w2 : World)
    (h : bwAnnounce w st = .ok w2) :
    ∃ p, w2 = sendChannel w (.round3_pick st.action p st.available_balls.length) := by
  unfold bwAnnounce at h
  split at h
  next p hp =>
    injection h with h
    exact ⟨p, h.symm⟩
  next => cases h

theorem mkBinWinState_eta (w : World) (balls : List Ball) (first : Pl) (s : Seeds)
    (w2 : World) (g2 : GState) (h : mkBinWinState w balls first s = .ok (w2, g2)) :
    w2.game.players = w.game.players ∧ w2.curr = w.curr ∧
    w2.game.machine_balls = w.game.machine_balls ∧
    w2.game.results = w.game.results ∧
    w2.game.finished = w.game.finished ∧
    ∃ st, g2 = .binWin st := by
  unfold mkBinWinState at h
  split at h
  · dsimp only at h
    split at h
    next w3 hann =>
      injection h with h
      injection h with h1 h2
      obtain ⟨p, hp⟩ := bwAnnounce_eta _ _ _ hann
      subst h1
      subst hp
      exact ⟨rfl, rfl, rfl, rfl, rfl, _, h2.symm⟩
    next => cases h
  · cases h

theorem threePlayerNextState_eta (w : World) (hs : HSState) (balls : List Ball)
    (s : Seeds) (w2 : World) (g2 : GState)
    (h : threePlayerNextState w hs balls s = .ok (w2, g2)) :
    w2.game.players = w.game.players ∧ w2.curr = w.curr ∧
    w2.game.machine_balls = w.game.machine_balls ∧
    w2.game.results = w.game.results ∧
    w2.game.finished = w.game.finished ∧
    ∃ st, g2 = .binWin st := by
  unfold threePlayerNextState at h
  cases hp : cashPairs w hs w.game.players with
  | error e => rw [hp] at h; cases h
  | ok pairs =>
    rw [hp] at h
    simp only [exbind_ok] at h
    cases hsort : pySortDesc pairs with
    | error e => rw [hsort] at h; cases h
    | ok sorted =>
      rw [hsort] at h
      simp only [exbind_ok] at h
      match sorted, h with
      | [], h => cases h
      | top :: rest, h => exact mkBinWinState_eta w balls top.2 s w2 g2 h

theorem threePlayerNextState_no_assert (w : World) (hs : HSState) (balls : List Ball)
    (s : Seeds) (e : Err) (h : threePlayerNextState w hs balls s = .error e) :
    e ≠ .assertionError := by
  unfold threePlayerNextState at h
  cases hp : cashPairs w hs w.game.players with
  | error e2 =>
    rw [hp] at h
    have : ∀ (ps : List Pl) (e3 : Err), cashPairs w hs ps = .error e3 →
        e3 = .keyError := by
      intro ps
      induction ps with
      | nil => intro e3 hc; cases hc
      | cons p ps ih =>
        intro e3 hc
        unfold cashPairs at hc
        split at hc
        next =>
          split at hc
          next => cases hc
          next e4 hrec =>
            injection hc with hc
            subst hc
            exact ih e4 hrec
        next =>
          injection hc with hc
          exact hc.symm ▸ rfl
    injection h with h
    subst h
    rw [this w.game.players e2 hp]
    intro hcon
    cases hcon
  | ok pairs =>
    rw [hp] at h
    simp only [exbind_ok] at h
    cases hsort : pySortDesc pairs with
    | error e2 =>
      rw [hsort] at h
      have hins : ∀ (x : ℤ × Pl) (acc : List (ℤ × Pl)) (e3 : Err),
          insertDesc x acc = .error e3 → e3 = .typeError := by
        intro x acc
        induction acc with
        | nil => intro e3 hc; cases hc
        | cons y ys ih =>
          intro e3 hc
          unfold insertDesc at hc
          cases hlt : pyTupLt y x with
          | error e4 =>
            rw [hlt] at hc
            simp only [exbind_err] at hc
            injection hc with hc
            subst hc
            unfold pyTupLt at hlt
            split at hlt
            · split at hlt
              · cases hlt
              · injection hlt with hlt
                subst hlt
                rfl
            · cases hlt
          | ok b =>
            rw [hlt] at hc
            simp only [exbind_ok] at hc
            split at hc
            · cases hc
            · cases hrec : insertDesc x ys with
              | error e4 =>
                rw [hrec] at hc
                simp only [exbind_err] at hc
                injection hc with hc
                subst hc
                exact ih e4 hrec
              | ok r =>
                rw [hrec] at hc
                simp only [exbind_ok] at hc
                cases hc
      have hsortlem : ∀ (l acc : List (ℤ × Pl)) (e3 : Err),
          l.foldlM (fun acc x => insertDesc x acc) acc = .error e3 → e3 = .typeError := by
        intro l
        induction l with
        | nil => intro acc e3 hc; cases hc
        | cons x xs ih =>
          intro acc e3 hc
          rw [List.foldlM_cons] at hc
          cases hins2 : insertDesc x acc with
          | error e4 =>
            rw [hins2] at hc
            simp only [exbind_err] at hc
            injection hc with hc
            subst hc
            exact hins x acc e4 hins2
          | ok acc2 =>
            rw [hins2] at hc
            simp only [exbind_ok] at hc
            exact ih acc2 e3 hc
      injection h with h
      subst h
      rw [hsortlem pairs [] e2 hsort]
      intro hcon
      cases hcon
    | ok sorted =>
      rw [hsort] at h
      simp only [exbind_ok] at h
      cases sorted with
      | nil =>
        dsimp only at h
        injection h with h
        subst h
        intro hcon
        cases hcon
      | cons top rest =>
        dsimp only at h
        unfold mkBinWinState at h
        split at h
        · dsimp only at h
          split at h
          next => cases h
          next e2 hann =>
            injection h with h
            subst h
            unfold bwAnnounce at hann
            split at hann
            next => cases hann
            next =>
              injection hann with hann
              subst hann
              intro hcon
              cases hcon
        · injection h with h
          subst h
          intro hcon
          cases hcon

theorem removePlayer_error (w : World) (p : Pl) (e : Err)
    (h : removePlayer w p = .error e) : e = .valueError := by
  unfold removePlayer at h
  split at h
  · cases h
  · injection h with h
    exact h.symm

theorem hsGetBallList_error (hs : HSState) :
    ∀ (ps : List Pl) (e : Err), hsGetBallList hs ps = .error e → e = .keyError := by
  intro ps
  induction ps with
  | nil => intro e h; cases h
  | cons p ps ih =>
    intro e h
    unfold hsGetBallList at h
    split at h
    next =>
      split at h
      next => cases h
      next e2 hrec =>
        injection h with h
        subst h
        exact ih e2 hrec
    next =>
      injection h with h
      exact h.symm

/-- Packaging of the invariant for a non-finishing transition. -/
theorem inv_mk (w2 : World) (g : GState)
    (hnodup : w2.game.players.Nodup)
    (hiff : ∀ q, w2.curr q = .this ↔ q ∈ w2.game.players)
    (hres : ∀ e ∈ w2.game.results, e.2 = 0)
    (hfin : w2.game.finished = false)
    (hnotfin : g ≠ .finished)
    (hstok : stateOk (setState w2 g)) :
    Inv (setState w2 g) := by
  refine ⟨hnodup, hiff, fun _ => hres, ?_, ?_, hstok⟩
  · rw [setState_state, setState_finished, hfin]
    constructor
    · intro hcon
      exact absurd hcon hnotfin
    · intro hcon
      cases hcon
  · rw [setState_finished, hfin]
    intro hcon
    cases hcon

/-- `_start_next` preserves the invariant on success and never trips
the construction assertion. -/
theorem hsStartNext_spec (w : World) (hs : HSState) (loser : Pl) (s : Seeds)
    (hnodup : w.game.players.Nodup)
    (hiff : ∀ q, w.curr q = .this ↔ q ∈ w.game.players)
    (hres0 : ∀ e ∈ w.game.results, e.2 = 0)
    (hfin_false : w.game.finished = false)
    (hstok :
      (hs.number = 1 ∧ w.game.players.length = 4 ∧
        w.game.machine_balls.length = 88 ∧
        ballCountsOk w.game.players hs four_shown_count four_hidden_count) ∨
      (hs.number = 2 ∧ w.game.players.length = 3 ∧
        w.game.machine_balls.length = 86 ∧
        ballCountsOk w.game.players hs three_shown_count three_hidden_count)) :
    (∀ w2 g2, hsStartNext w hs loser s = .ok (w2, g2) → Inv (setState w2 g2)) ∧
    (∀ e, hsStartNext w hs loser s = .error e → e ≠ .assertionError) := by
  cases hrem : removePlayer w loser with
  | error e0 =>
    have he0 := removePlayer_error w loser e0 hrem
    constructor
    · intro w2 g2 hok
      unfold hsStartNext at hok
      rw [hrem] at hok
      simp only [exbind_err] at hok
      cases hok
    · intro e hok
      unfold hsStartNext at hok
      rw [hrem] at hok
      simp only [exbind_err] at hok
      injection hok with hok
      subst hok
      subst he0
      intro hcon
      cases hcon
  | ok w1 =>
    obtain ⟨hpl1, hcurr1, hmach1, hres1, hfin1, hst1, hmem_loser⟩ :=
      removePlayer_eta w loser w1 hrem
    obtain ⟨hnodup1, hiff1⟩ := removePlayer_memInv w loser w1 hnodup hiff hrem
    have hlen_erase : w1.game.players.length + 1 = w.game.players.length := by
      rw [hpl1, List.length_erase_of_mem hmem_loser]
      have : 0 < w.game.players.length := List.length_pos.mpr (by
        intro hcon
        rw [hcon] at hmem_loser
        cases hmem_loser)
      omega
    rcases hstok with ⟨hnum, hlen, hmach, hcounts⟩ | ⟨hnum, hlen, hmach, hcounts⟩
    · -- round 1 → round 2: the construction succeeds outright
      have hcounts1 : ∀ p ∈ w1.game.players,
          (∃ l, dictGet hs.shown_balls p = some l ∧ l.length = four_shown_count) ∧
          (∃ l, dictGet hs.hidden_balls p = some l ∧ l.length = four_hidden_count) := by
        intro p hp
        rw [hpl1] at hp
        exact hcounts p (List.mem_of_mem_erase hp)
      obtain ⟨balls, hballs, hblen⟩ :=
        hsGetBallList_ok_of_counts hs four_shown_count four_hidden_count
          w1.game.players hcounts1
      have hlen1 : w1.game.players.length = 3 := by omega
      have hmac1 : three_cash_ball_count ≤ w1.game.machine_balls.length := by
        rw [hmach1, hmach]
        norm_num [three_cash_ball_count]
      have hcnt : balls.length + three_cash_ball_count + three_killer_count =
          (three_shown_count + three_hidden_count) * w1.game.players.length := by
        rw [hblen, hlen1]
        norm_num [three_cash_ball_count, three_killer_count, three_shown_count,
          three_hidden_count, four_shown_count, four_hidden_count]
      obtain ⟨w2', sh, hd, hmk, hp2, hc2, hr2, hf2, hs2, hm2, hcnt2⟩ :=
        mkHiddenShown_spec w1 2 balls three_cash_ball_count three_killer_count
          three_shown_count three_hidden_count s hmac1 hcnt
      have hrun : hsStartNext w hs loser s =
          .ok (w2', .hiddenShown ⟨2, sh, hd, w1.game.players, []⟩) := by
        unfold hsStartNext
        rw [hrem]
        simp only [exbind_ok]
        rw [hballs]
        simp only [exbind_ok]
        rw [if_pos hnum]
        unfold mkThreePlayerState
        exact hmk
      constructor
      · intro w2 g2 hok
        rw [hrun] at hok
        injection hok with hok
        injection hok with hok1 hok2
        subst hok1
        subst hok2
        apply inv_mk
        · rw [hp2]
          exact hnodup1
        · intro q
          rw [hc2, hp2]
          exact hiff1 q
        · rw [hr2, hres1]
          exact hres0
        · rw [hf2, hfin1]
          exact hfin_false
        · intro hcon
          cases hcon
        · unfold stateOk
          rw [setState_state]
          right
          refine ⟨rfl, ?_, ?_, ?_⟩
          · rw [setState_players, hp2, hlen1]
          · rw [setState_machine, hm2, hmach1, hmach]
            norm_num [three_cash_ball_count]
          · rw [setState_players, hp2]
            exact hcnt2
      · intro e hok
        rw [hrun] at hok
        cases hok
    · -- round 2 → Bin/Win: no assertion on this path
      constructor
      · intro w2 g2 hok
        unfold hsStartNext at hok
        rw [hrem] at hok
        simp only [exbind_ok] at hok
        cases hballs : hsGetBallList hs w1.game.players with
        | error e2 =>
          rw [hballs] at hok
          simp only [exbind_err] at hok
          cases hok
        | ok balls =>
          rw [hballs] at hok
          simp only [exbind_ok] at hok
          rw [if_neg (by rw [hnum]; omega)] at hok
          obtain ⟨hp2, hc2, hm2, hr2, hf2, st, hst2⟩ :=
            threePlayerNextState_eta w1 hs balls s w2 g2 hok
          subst hst2
          apply inv_mk
          · rw [hp2]
            exact hnodup1
          · intro q
            rw [hc2, hp2]
            exact hiff1 q
          · rw [hr2, hres1]
            exact hres0
          · rw [hf2, hfin1]
            exact hfin_false
          · intro hcon
            cases hcon
          · unfold stateOk
            rw [setState_state]
            trivial
      · intro e hok
        unfold hsStartNext at hok
        rw [hrem] at hok
        simp only [exbind_ok] at hok
        cases hballs : hsGetBallList hs w1.game.players with
        | error e2 =>
          rw [hballs] at hok
          simp only [exbind_err] at hok
          injection hok with hok
          subst hok
          rw [hsGetBallList_error hs w1.game.players e2 hballs]
          intro hcon
          cases hcon
        | ok balls =>
          rw [hballs] at hok
          simp only [exbind_ok] at hok
          rw [if_neg (by rw [hnum]; omega)] at hok
          exact threePlayerNextState_no_assert w1 hs balls s e hok

theorem stateOk_congr (w w2 : World)
    (hst : w2.game.state = w.game.state)
    (hpl : w2.game.players = w.game.players)
    (hm : w2.game.machine_balls = w.game.machine_balls) :
    stateOk w → stateOk w2 := by
  intro h
  unfold stateOk at h ⊢
  rw [hst, hpl, hm]
  exact h

theorem inv_congr (w w2 : World)
    (hpl : w2.game.players = w.game.players)
    (hc : w2.curr = w.curr)
    (hres : w2.game.results = w.game.results)
    (hfin : w2.game.finished = w.game.finished)
    (hst : w2.game.state = w.game.state)
    (hm : w2.game.machine_balls = w.game.machine_balls) :
    Inv w → Inv w2 := by
  rintro ⟨h1, h2, h3, h4, h5, h6⟩
  refine ⟨hpl ▸ h1, ?_, ?_, ?_, ?_, stateOk_congr w w2 hst hpl hm h6⟩
  · intro q
    rw [hc, hpl]
    exact h2 q
  · rw [hfin, hres]
    exact h3
  · rw [hst, hfin]
    exact h4
  · rw [hfin, hpl]
    exact h5

theorem inv_sendChannel (w : World) (m : Msg) (hw : Inv w) : Inv (sendChannel w m) :=
  inv_congr w (sendChannel w m) rfl rfl rfl rfl rfl rfl hw

/-- A finished world built by `FinishedState.__init__` satisfies the
invariant regardless of the pending results values. -/
theorem inv_mkFinished (w : World)
    (hiff : ∀ q, w.curr q = .this ↔ q ∈ w.game.players) :
    Inv (mkFinished w) := by
  obtain ⟨h1, h2⟩ := mkFinished_memInv w hiff
  refine ⟨h1, h2, ?_, ?_, ?_, ?_⟩
  · intro hcon
    rw [mkFinished_finished] at hcon
    cases hcon
  · rw [mkFinished_state, mkFinished_finished]
    simp
  · intro _
    exact mkFinished_players w
  · unfold stateOk
    rw [mkFinished_state]
    trivial

theorem require_playing_none (w : World) (p : Pl) (you : Bool)
    (h : require_playing w p you = none) : w.curr p = .this := by
  unfold require_playing at h
  split at h
  · assumption
  · cases h

/-- `GameState.on_leave` preserves the invariant; its only fault is the
`ValueError` of `list.remove`. -/
theorem gsOnLeave_spec (w : World) (p : Pl) (f : Bool)
    (hw : Inv w) (hnot_hs : ∀ hs, w.game.state ≠ .hiddenShown hs) :
    (∀ w2 m, gsOnLeave w p f = .ok (w2, m) → Inv w2) ∧
    (∀ e, gsOnLeave w p f = .error e → e = .valueError) := by
  cases hrp : require_playing w p (!f) with
  | some m0 =>
    constructor
    · intro w2 m hok
      unfold gsOnLeave at hok
      rw [hrp] at hok
      injection hok with hok
      injection hok with hok1 hok2
      subst hok1
      exact hw
    · intro e hok
      unfold gsOnLeave at hok
      rw [hrp] at hok
      cases hok
  | none =>
    cases hrem : removePlayer w p with
    | error e0 =>
      constructor
      · intro w2 m hok
        unfold gsOnLeave at hok
        rw [hrp, hrem] at hok
        simp only [exbind_err] at hok
        cases hok
      · intro e hok
        unfold gsOnLeave at hok
        rw [hrp, hrem] at hok
        simp only [exbind_err] at hok
        injection hok with hok
        subst hok
        exact removePlayer_error w p e0 hrem
    | ok w1 =>
      obtain ⟨hnodup, hiff, hres, hfin_iff, hfin_pl, hstok⟩ := hw
      obtain ⟨hpl1, hcurr1, hmach1, hres1, hfin1, hst1, hmem⟩ :=
        removePlayer_eta w p w1 hrem
      obtain ⟨hnodup1, hiff1⟩ := removePlayer_memInv w p w1 hnodup hiff hrem
      have hfin_false : w.game.finished = false := by
        cases hfe : w.game.finished
        · rfl
        · rw [hfin_pl hfe] at hmem
          cases hmem
      have hinv1 : Inv w1 := by
        refine ⟨hnodup1, hiff1, ?_, ?_, ?_, ?_⟩
        · rw [hfin1, hres1]
          exact hres
        · rw [hst1, hfin1]
          exact hfin_iff
        · rw [hfin1]
          intro hcon
          rw [hcon] at hfin_false
          cases hfin_false
        · unfold stateOk
          rw [hst1]
          cases hst : w.game.state with
          | waiting =>
            unfold stateOk at hstok
            rw [hst] at hstok
            have : w1.game.players.length + 1 = w.game.players.length := by
              rw [hpl1, List.length_erase_of_mem hmem]
              have : 0 < w.game.players.length := List.length_pos.mpr (by
                intro hcon
                rw [hcon] at hmem
                cases hmem)
              omega
            exact ⟨by rw [hmach1]; exact hstok.1, by omega⟩
          | hiddenShown hs => exact absurd hst (hnot_hs hs)
          | binWin st => trivial
          | splitSteal st => trivial
          | finished => trivial
      constructor
      · intro w2 m hok
        unfold gsOnLeave at hok
        rw [hrp, hrem] at hok
        simp only [exbind_ok] at hok
        split at hok
        · injection hok with hok
          injection hok with hok1 hok2
          subst hok1
          exact inv_mkFinished (sendChannel w1 .game_cancelled)
            (fun q => hiff1 q)
        · injection hok with hok
          injection hok with hok1 hok2
          subst hok1
          exact hinv1
      · intro e hok
        unfold gsOnLeave at hok
        rw [hrp, hrem] at hok
        simp only [exbind_ok] at hok
        split at hok <;> cases hok

/-- The fold writing the split payouts keeps every other field. -/
theorem foldl_setResults_eta (players : List Pl) (v : ℤ) :
    ∀ w : World,
      (players.foldl (fun wa p => { wa with game :=
        { wa.game with results := dictSet wa.game.results p v } }) w).game.players =
          w.game.players ∧
      (players.foldl (fun wa p => { wa with game :=
        { wa.game with results := dictSet wa.game.results p v } }) w).curr = w.curr ∧
      (players.foldl (fun wa p => { wa with game :=
        { wa.game with results := dictSet wa.game.results p v } }) w).game.finished =
          w.game.finished ∧
      (players.foldl (fun wa p => { wa with game :=
        { wa.game with results := dictSet wa.game.results p v } }) w).game.state =
          w.game.state := by
  induction players with
  | nil => intro w; exact ⟨rfl, rfl, rfl, rfl⟩
  | cons p ps ih =>
    intro w
    simpa using ih { w with game :=
      { w.game with results := dictSet w.game.results p v } }

/-- `_finish_game` always installs the finished state and preserves the
invariant; it never trips the construction assertion. -/
theorem ssFinishGame_spec (w : World) (st : SSState)
    (hiff : ∀ q, w.curr q = .this ↔ q ∈ w.game.players) :
    (∀ w2 g2, ssFinishGame w st = .ok (w2, g2) → g2 = .finished ∧ Inv (setState w2 g2)) ∧
    (∀ e, ssFinishGame w st = .error e → e ≠ .assertionError) := by
  have hfin_of : ∀ w3 : World,
      (∀ q, w3.curr q = .this ↔ q ∈ w3.game.players) →
      Inv (setState (mkFinished w3) .finished) := by
    intro w3 hiff3
    have h := inv_mkFinished w3 hiff3
    exact inv_congr (mkFinished w3) (setState (mkFinished w3) .finished)
      rfl rfl rfl rfl rfl rfl h
  refine ⟨?_, ?_⟩
  · intro w2 g2 hok
    unfold ssFinishGame at hok
    split at hok
    next winner hwin =>
      injection hok with hok
      injection hok with hok1 hok2
      subst hok1
      subst hok2
      exact ⟨rfl, hfin_of _ (fun q => hiff q)⟩
    next =>
      dsimp only at hok
      split at hok
      · injection hok with hok
        injection hok with hok1 hok2
        subst hok1
        subst hok2
        exact ⟨rfl, hfin_of _ (fun q => hiff q)⟩
      · split at hok
        · split at hok
          next => cases hok
          next first hfirst =>
            split at hok
            next => cases hok
            next a0 ha0 =>
              split at hok
              next => cases hok
              next winner hwinner =>
                injection hok with hok
                injection hok with hok1 hok2
                subst hok1
                subst hok2
                exact ⟨rfl, hfin_of _ (fun q => hiff q)⟩
        · obtain ⟨hfp, hfc, hff, hfs⟩ :=
            foldl_setResults_eta w.game.players (Int.fdiv st.prize 2) w
          injection hok with hok
          injection hok with hok1 hok2
          subst hok1
          subst hok2
          refine ⟨rfl, hfin_of _ ?_⟩
          intro q
          show (w.game.players.foldl _ w).curr q = .this ↔
            q ∈ (w.game.players.foldl _ w).game.players
          rw [hfc, hfp]
          exact hiff q
  · intro e hok
    unfold ssFinishGame at hok
    split at hok
    next winner hwin => cases hok
    next =>
      dsimp only at hok
      split at hok
      · cases hok
      · split at hok
        · split at hok
          next =>
            injection hok with hok
            subst hok
            intro hcon
            cases hcon
          next first hfirst =>
            split at hok
            next =>
              injection hok with hok
              subst hok
              intro hcon
              cases hcon
            next a0 ha0 =>
              split at hok
              next =>
                injection hok with hok
                subst hok
                intro hcon
                cases hcon
              next winner hwinner => cases hok
        · cases hok

theorem dictSet_zero (d : List (Pl × ℤ)) (k : Pl) (h : ∀ e ∈ d, e.2 = 0) :
    ∀ e ∈ dictSet d k 0, e.2 = 0 := by
  intro e he
  unfold dictSet at he
  split at he
  · obtain ⟨x, hx, hfx⟩ := List.mem_map.mp he
    by_cases hxk : (x.1 == k) = true
    · rw [if_pos hxk] at hfx
      rw [← hfx]
    · rw [if_neg hxk] at hfx
      rw [← hfx]
      exact h x hx
  · rcases List.mem_append.mp he with h1 | h1
    · exact h e h1
    · rw [List.mem_singleton] at h1
      rw [h1]

@[simp] theorem addPlayer_players (w : World) (p : Pl) :
    (addPlayer w p).game.players = w.game.players ++ [p] := rfl
@[simp] theorem addPlayer_machine (w : World) (p : Pl) :
    (addPlayer w p).game.machine_balls = w.game.machine_balls := rfl
@[simp] theorem addPlayer_state (w : World) (p : Pl) :
    (addPlayer w p).game.state = w.game.state := rfl
@[simp] theorem addPlayer_finished (w : World) (p : Pl) :
    (addPlayer w p).game.finished = w.game.finished := rfl
@[simp] theorem addPlayer_results (w : World) (p : Pl) :
    (addPlayer w p).game.results = dictSet w.game.results p 0 := rfl

/-- `WaitingState.on_join` preserves the invariant and never faults at
all when the invariant holds. -/
theorem waitingJoin_spec (w : World) (p : Pl) (s : Seeds)
    (hw : Inv w) (hstate : w.game.state = .waiting) :
    (∀ w2 m, waitingJoin w p s = .ok (w2, m) → Inv w2) ∧
    (∀ e, waitingJoin w p s ≠ .error e) := by
  obtain ⟨hnodup, hiff, hres, hfin_iff, hfin_pl, hstok⟩ := hw
  have hfin_false : w.game.finished = false := by
    cases hfe : w.game.finished
    · rfl
    · rw [hfin_iff.mpr hfe] at hstate
      cases hstate
  have hres0 := hres hfin_false
  unfold stateOk at hstok
  rw [hstate] at hstok
  obtain ⟨hmach, hlen⟩ := hstok
  unfold waitingJoin
  by_cases hmem : p ∈ w.game.players
  · rw [if_pos hmem]
    exact ⟨fun w2 m hok => by
      injection hok with hok
      injection hok with hok1 hok2
      subst hok1
      exact ⟨hnodup, hiff, hres, hfin_iff, hfin_pl, by
        unfold stateOk
        rw [hstate]
        exact ⟨hmach, hlen⟩⟩,
      fun e hok => by cases hok⟩
  · rw [if_neg hmem]
    by_cases hbusy : w.curr p ≠ .null
    · rw [if_pos hbusy]
      exact ⟨fun w2 m hok => by
        injection hok with hok
        injection hok with hok1 hok2
        subst hok1
        exact ⟨hnodup, hiff, hres, hfin_iff, hfin_pl, by
          unfold stateOk
          rw [hstate]
          exact ⟨hmach, hlen⟩⟩,
        fun e hok => by cases hok⟩
    · rw [if_neg hbusy]
      obtain ⟨hnodup2, hiff2⟩ := addPlayer_memInv w p hnodup hiff hmem
      have hres2 : ∀ e ∈ (addPlayer w p).game.results, e.2 = 0 := by
        rw [addPlayer_results]
        exact dictSet_zero w.game.results p hres0
      by_cases hfour : (addPlayer w p).game.players.length = waiting_player_count
      · rw [if_pos hfour]
        have hm12 : four_cash_ball_count ≤
            (sendChannel (addPlayer w p)
              (.game_start (addPlayer w p).game.players)).game.machine_balls.length := by
          rw [sendChannel_machine, addPlayer_machine, hmach]
          norm_num [four_cash_ball_count]
        have hcnt : ([] : List Ball).length + four_cash_ball_count + four_killer_count =
            (four_shown_count + four_hidden_count) *
              (sendChannel (addPlayer w p)
                (.game_start (addPlayer w p).game.players)).game.players.length := by
          rw [sendChannel_players, hfour]
          norm_num [four_cash_ball_count, four_killer_count, four_shown_count,
            four_hidden_count, waiting_player_count]
        obtain ⟨w2', sh, hd, hmk, hp2, hc2, hr2, hf2, hs2, hm2, hcnt2⟩ :=
          mkHiddenShown_spec
            (sendChannel (addPlayer w p) (.game_start (addPlayer w p).game.players))
            1 [] four_cash_ball_count four_killer_count
            four_shown_count four_hidden_count s hm12 hcnt
        constructor
        · intro w2 m hok
          dsimp only at hok
          unfold mkFourPlayerState at hok
          rw [hmk] at hok
          simp only [exbind_ok] at hok
          injection hok with hok
          injection hok with hok1 hok2
          subst hok1
          apply inv_mk
          · rw [hp2, sendChannel_players]
            exact hnodup2
          · intro q
            rw [hc2, hp2, sendChannel_players, sendChannel_curr]
            exact hiff2 q
          · rw [hr2, sendChannel_results]
            exact hres2
          · rw [hf2, sendChannel_finished, addPlayer_finished]
            exact hfin_false
          · intro hcon
            cases hcon
          · unfold stateOk
            rw [setState_state]
            left
            refine ⟨rfl, ?_, ?_, ?_⟩
            · rw [setState_players, hp2, sendChannel_players, hfour]
              rfl
            · rw [setState_machine, hm2, sendChannel_machine, addPlayer_machine, hmach]
              norm_num [four_cash_ball_count]
            · rw [setState_players, hp2, sendChannel_players]
              exact hcnt2
        · intro e hok
          dsimp only at hok
          unfold mkFourPlayerState at hok
          rw [hmk] at hok
          simp only [exbind_ok] at hok
          cases hok
      · rw [if_neg hfour]
        constructor
        · intro w2 m hok
          injection hok with hok
          injection hok with hok1 hok2
          subst hok1
          refine ⟨hnodup2, hiff2, fun _ => hres2, ?_, ?_, ?_⟩
          · rw [addPlayer_state, addPlayer_finished, hstate, hfin_false]
            constructor
            · intro hcon
              cases hcon
            · intro hcon
              cases hcon
          · rw [addPlayer_finished, hfin_false]
            intro hcon
            cases hcon
          · unfold stateOk
            rw [addPlayer_state, hstate]
            refine ⟨by rw [addPlayer_machine]; exact hmach, ?_⟩
            rw [addPlayer_players] at hfour ⊢
            rw [List.length_append]
            rw [List.length_append] at hfour
            unfold waiting_player_count at hfour
            simp only [List.length_singleton] at hfour ⊢
            omega
        · intro e hok
          cases hok

/-- `on_view_balls` either answers without touching the world or
raises the `KeyError` of the unchecked dict lookup. -/
theorem hsViewBalls_spec (w : World) (hs : HSState) (p : Pl) (hw : Inv w) :
    (∀ w2 m, hsViewBalls w hs p = .ok (w2, m) → Inv w2) ∧
    (∀ e, hsViewBalls w hs p = .error e → e = .keyError) := by
  unfold hsViewBalls
  split
  · constructor
    · intro w2 m hok
      injection hok with hok
      injection hok with hok1 hok2
      subst hok1
      exact hw
    · intro e hok
      cases hok
  · constructor
    · intro w2 m hok
      cases hok
    · intro e hok
      injection hok with hok
      exact hok.symm

/-- `_vote_done` preserves the invariant — it either eliminates the
unique plurality loser through `_start_next` or restarts the vote — and
never trips the construction assertion. -/
theorem hsVoteDone_spec (w : World) (hs : HSState) (s : Seeds)
    (hnodup : w.game.players.Nodup)
    (hiff : ∀ q, w.curr q = .this ↔ q ∈ w.game.players)
    (hres0 : ∀ e ∈ w.game.results, e.2 = 0)
    (hfin_false : w.game.finished = false)
    (hstok :
      (hs.number = 1 ∧ w.game.players.length = 4 ∧
        w.game.machine_balls.length = 88 ∧
        ballCountsOk w.game.players hs four_shown_count four_hidden_count) ∨
      (hs.number = 2 ∧ w.game.players.length = 3 ∧
        w.game.machine_balls.length = 86 ∧
        ballCountsOk w.game.players hs three_shown_count three_hidden_count)) :
    (∀ w2 g2, hsVoteDone w hs s = .ok (w2, g2) → Inv (setState w2 g2)) ∧
    (∀ e, hsVoteDone w hs s = .error e → e ≠ .assertionError) := by
  constructor
  · intro w2 g2 hok
    unfold hsVoteDone at hok
    dsimp only at hok
    split at hok
    · cases hok
    · split at hok
      next loser hlosers =>
        exact (hsStartNext_spec _ hs loser s (by exact hnodup) (by exact hiff)
          (by exact hres0) (by exact hfin_false) (by exact hstok)).1 w2 g2 hok
      next hne =>
        injection hok with hok
        injection hok with hok1 hok2
        subst hok1
        subst hok2
        apply inv_mk
        · exact hnodup
        · exact hiff
        · exact hres0
        · exact hfin_false
        · intro hcon
          cases hcon
        · exact hstok
  · intro e hok
    unfold hsVoteDone at hok
    dsimp only at hok
    split at hok
    · injection hok with hok
      subst hok
      intro hcon
      cases hcon
    · split at hok
      next loser hlosers =>
        exact (hsStartNext_spec _ hs loser s (by exact hnodup) (by exact hiff)
          (by exact hres0) (by exact hfin_false) (by exact hstok)).2 e hok
      next hne => cases hok

/-- `on_vote` preserves the invariant and never raises an assertion. -/
theorem hsVote_spec (w : World) (hs : HSState) (p t : Pl) (s : Seeds)
    (hw : Inv w) (hstate : w.game.state = .hiddenShown hs) :
    (∀ w2 m, hsVote w hs p t s = .ok (w2, m) → Inv w2) ∧
    (∀ e, hsVote w hs p t s = .error e → e ≠ .assertionError) := by
  obtain ⟨hnodup, hiff, hres, hfin_iff, hfin_pl, hstok⟩ := hw
  have hw : Inv w := ⟨hnodup, hiff, hres, hfin_iff, hfin_pl, hstok⟩
  have hfin_false : w.game.finished = false := by
    cases hfe : w.game.finished
    · rfl
    · rw [hfin_iff.mpr hfe] at hstate
      cases hstate
  have hres0 := hres hfin_false
  unfold stateOk at hstok
  rw [hstate] at hstok
  constructor
  · intro w2 m hok
    unfold hsVote at hok
    split at hok
    · injection hok with hok
      injection hok with hok1 hok2
      subst hok1
      exact hw
    · split at hok
      · injection hok with hok
        injection hok with hok1 hok2
        subst hok1
        exact hw
      · split at hok
        next m0 hrp =>
          injection hok with hok
          injection hok with hok1 hok2
          subst hok1
          exact hw
        next hrp =>
          split at hok
          next m0 hrp2 =>
            injection hok with hok
            injection hok with hok1 hok2
            subst hok1
            exact hw
          next hrp2 =>
            split at hok
            · injection hok with hok
              injection hok with hok1 hok2
              subst hok1
              exact hw
            · dsimp only at hok
              split at hok
              · cases hvd : hsVoteDone (sendChannel w (.round12_voted p))
                    { hs with votes := dictSet hs.votes p t } s with
                | error e0 =>
                  rw [hvd] at hok
                  simp only [exbind_err] at hok
                  cases hok
                | ok pr =>
                  obtain ⟨w3, g3⟩ := pr
                  rw [hvd] at hok
                  simp only [exbind_ok] at hok
                  injection hok with hok
                  injection hok with hok1 hok2
                  subst hok1
                  exact (hsVoteDone_spec (sendChannel w (.round12_voted p))
                    { hs with votes := dictSet hs.votes p t } s
                    hnodup hiff hres0 hfin_false hstok).1 w3 g3 hvd
              · injection hok with hok
                injection hok with hok1 hok2
                subst hok1
                apply inv_mk
                · exact hnodup
                · exact hiff
                · exact hres0
                · exact hfin_false
                · intro hcon
                  cases hcon
                · exact hstok
  · intro e hok
    unfold hsVote at hok
    split at hok
    · cases hok
    · split at hok
      · cases hok
      · split at hok
        next m0 hrp => cases hok
        next hrp =>
          split at hok
          next m0 hrp2 => cases hok
          next hrp2 =>
            split at hok
            · cases hok
            · dsimp only at hok
              split at hok
              · cases hvd : hsVoteDone (sendChannel w (.round12_voted p))
                    { hs with votes := dictSet hs.votes p t } s with
                | error e0 =>
                  rw [hvd] at hok
                  simp only [exbind_err] at hok
                  injection hok with hok
                  subst hok
                  exact (hsVoteDone_spec (sendChannel w (.round12_voted p))
                    { hs with votes := dictSet hs.votes p t } s
                    hnodup hiff hres0 hfin_false hstok).2 e0 hvd
                | ok pr =>
                  obtain ⟨w3, g3⟩ := pr
                  rw [hvd] at hok
                  simp only [exbind_ok] at hok
                  cases hok
              · cases hok

/-- `HiddenShownState.on_leave` preserves the invariant and never
raises an assertion. -/
theorem hsLeave_spec (w : World) (hs : HSState) (p : Pl) (forced : Bool) (s : Seeds)
    (hw : Inv w) (hstate : w.game.state = .hiddenShown hs) :
    (∀ w2 m, hsLeave w hs p forced s = .ok (w2, m) → Inv w2) ∧
    (∀ e, hsLeave w hs p forced s = .error e → e ≠ .assertionError) := by
  obtain ⟨hnodup, hiff, hres, hfin_iff, hfin_pl, hstok⟩ := hw
  have hw : Inv w := ⟨hnodup, hiff, hres, hfin_iff, hfin_pl, hstok⟩
  have hfin_false : w.game.finished = false := by
    cases hfe : w.game.finished
    · rfl
    · rw [hfin_iff.mpr hfe] at hstate
      cases hstate
  have hres0 := hres hfin_false
  unfold stateOk at hstok
  rw [hstate] at hstok
  constructor
  · intro w2 m hok
    unfold hsLeave at hok
    split at hok
    next m0 hrp =>
      injection hok with hok
      injection hok with hok1 hok2
      subst hok1
      exact hw
    next hrp =>
      dsimp only at hok
      cases hsn : hsStartNext (sendChannel w (.round12_done_early p
          (w.game.players.map (fun q => (q, (dictGet hs.hidden_balls q).getD []))))) hs p s with
      | error e0 =>
        rw [hsn] at hok
        simp only [exbind_err] at hok
        cases hok
      | ok pr =>
        obtain ⟨w3, g3⟩ := pr
        rw [hsn] at hok
        simp only [exbind_ok] at hok
        injection hok with hok
        injection hok with hok1 hok2
        subst hok1
        exact (hsStartNext_spec _ hs p s (by exact hnodup) (by exact hiff)
          (by exact hres0) (by exact hfin_false) (by exact hstok)).1 w3 g3 hsn
  · intro e hok
    unfold hsLeave at hok
    split at hok
    next m0 hrp => cases hok
    next hrp =>
      dsimp only at hok
      cases hsn : hsStartNext (sendChannel w (.round12_done_early p
          (w.game.players.map (fun q => (q, (dictGet hs.hidden_balls q).getD []))))) hs p s with
      | error e0 =>
        rw [hsn] at hok
        simp only [exbind_err] at hok
        injection hok with hok
        subst hok
        exact (hsStartNext_spec _ hs p s (by exact hnodup) (by exact hiff)
          (by exact hres0) (by exact hfin_false) (by exact hstok)).2 e0 hsn
      | ok pr =>
        obtain ⟨w3, g3⟩ := pr
        rw [hsn] at hok
        simp only [exbind_ok] at hok
        cases hok

/-- `SplitStealState._handle_action` preserves the invariant and never
raises an assertion. -/
theorem ssHandleAction_spec (w : World) (st : SSState) (p : Pl) (a : SSAction)
    (hw : Inv w) (hstate : w.game.state = .splitSteal st) :
    (∀ w2 m, ssHandleAction w st p a = .ok (w2, m) → Inv w2) ∧
    (∀ e, ssHandleAction w st p a = .error e → e ≠ .assertionError) := by
  obtain ⟨hnodup, hiff, hres, hfin_iff, hfin_pl, hstok⟩ := hw
  have hw : Inv w := ⟨hnodup, hiff, hres, hfin_iff, hfin_pl, hstok⟩
  have hfin_false : w.game.finished = false := by
    cases hfe : w.game.finished
    · rfl
    · rw [hfin_iff.mpr hfe] at hstate
      cases hstate
  have hres0 := hres hfin_false
  constructor
  · intro w2 m hok
    unfold ssHandleAction at hok
    split at hok
    next m0 hrp =>
      injection hok with hok
      injection hok with hok1 hok2
      subst hok1
      exact hw
    next hrp =>
      split at hok
      · injection hok with hok
        injection hok with hok1 hok2
        subst hok1
        exact hw
      · dsimp only at hok
        split at hok
        · cases hfg : ssFinishGame (sendChannel w (.round4_action p))
              { st with actions := dictSet st.actions p a } with
          | error e0 =>
            rw [hfg] at hok
            simp only [exbind_err] at hok
            cases hok
          | ok pr =>
            obtain ⟨w3, g3⟩ := pr
            rw [hfg] at hok
            simp only [exbind_ok] at hok
            injection hok with hok
            injection hok with hok1 hok2
            subst hok1
            exact ((ssFinishGame_spec (sendChannel w (.round4_action p))
              { st with actions := dictSet st.actions p a }
              (by exact hiff)).1 w3 g3 hfg).2
        · injection hok with hok
          injection hok with hok1 hok2
          subst hok1
          apply inv_mk
          · exact hnodup
          · exact hiff
          · exact hres0
          · exact hfin_false
          · intro hcon
            cases hcon
          · exact trivial
  · intro e hok
    unfold ssHandleAction at hok
    split at hok
    next m0 hrp => cases hok
    next hrp =>
      split at hok
      · cases hok
      · dsimp only at hok
        split at hok
        · cases hfg : ssFinishGame (sendChannel w (.round4_action p))
              { st with actions := dictSet st.actions p a } with
          | error e0 =>
            rw [hfg] at hok
            simp only [exbind_err] at hok
            injection hok with hok
            subst hok
            exact (ssFinishGame_spec (sendChannel w (.round4_action p))
              { st with actions := dictSet st.actions p a }
              (by exact hiff)).2 e0 hfg
          | ok pr =>
            obtain ⟨w3, g3⟩ := pr
            rw [hfg] at hok
            simp only [exbind_ok] at hok
            cases hok
        · cases hok

/-- `SplitStealState.on_leave` preserves the invariant and never raises
an assertion. -/
theorem ssLeave_spec (w : World) (st : SSState) (p : Pl) (forced : Bool)
    (hw : Inv w) (hstate : w.game.state = .splitSteal st) :
    (∀ w2 m, ssLeave w st p forced = .ok (w2, m) → Inv w2) ∧
    (∀ e, ssLeave w st p forced = .error e → e ≠ .assertionError) := by
  have hnot_hs : ∀ hs, w.game.state ≠ .hiddenShown hs := by
    intro hs hcon
    rw [hstate] at hcon
    cases hcon
  constructor
  · intro w2 m hok
    unfold ssLeave at hok
    cases hgl : gsOnLeave w p forced with
    | error e0 =>
      rw [hgl] at hok
      simp only [exbind_err] at hok
      cases hok
    | ok pr =>
      obtain ⟨w1, msg1⟩ := pr
      have hinv1 : Inv w1 := (gsOnLeave_spec w p forced hw hnot_hs).1 w1 msg1 hgl
      rw [hgl] at hok
      simp only [exbind_ok] at hok
      split at hok
      · cases hfg : ssFinishGame w1 st with
        | error e0 =>
          rw [hfg] at hok
          simp only [exbind_err] at hok
          cases hok
        | ok pr2 =>
          obtain ⟨w3, g3⟩ := pr2
          rw [hfg] at hok
          simp only [exbind_ok] at hok
          injection hok with hok
          injection hok with hok1 hok2
          subst hok1
          exact ((ssFinishGame_spec w1 st hinv1.2.1).1 w3 g3 hfg).2
      · injection hok with hok
        injection hok with hok1 hok2
        subst hok1
        exact hinv1
  · intro e hok
    unfold ssLeave at hok
    cases hgl : gsOnLeave w p forced with
    | error e0 =>
      rw [hgl] at hok
      simp only [exbind_err] at hok
      injection hok with hok
      subst hok
      rw [(gsOnLeave_spec w p forced hw hnot_hs).2 e0 hgl]
      intro hcon
      cases hcon
    | ok pr =>
      obtain ⟨w1, msg1⟩ := pr
      have hinv1 : Inv w1 := (gsOnLeave_spec w p forced hw hnot_hs).1 w1 msg1 hgl
      rw [hgl] at hok
      simp only [exbind_ok] at hok
      split at hok
      · cases hfg : ssFinishGame w1 st with
        | error e0 =>
          rw [hfg] at hok
          simp only [exbind_err] at hok
          injection hok with hok
          subst hok
          exact (ssFinishGame_spec w1 st hinv1.2.1).2 e0 hfg
        | ok pr2 =>
          obtain ⟨w3, g3⟩ := pr2
          rw [hfg] at hok
          simp only [exbind_ok] at hok
          cases hok
      · cases hok

theorem bwAnnounce_error (w : World) (st : BWState) (e : Err)
    (h : bwAnnounce w st = .error e) : e = .indexError := by
  unfold bwAnnounce at h
  split at h
  · cases h
  · injection h with h
    exact h.symm

/-- `BinWinState.on_pick` preserves the invariant and never raises an
assertion. -/
theorem bwPick_spec (w : World) (st : BWState) (p : Pl) (ball_id : ℤ)
    (hw : Inv w) (hstate : w.game.state = .binWin st) :
    (∀ w2 m, bwPick w st p ball_id = .ok (w2, m) → Inv w2) ∧
    (∀ e, bwPick w st p ball_id = .error e → e ≠ .assertionError) := by
  obtain ⟨hnodup, hiff, hres, hfin_iff, hfin_pl, hstok⟩ := hw
  have hw : Inv w := ⟨hnodup, hiff, hres, hfin_iff, hfin_pl, hstok⟩
  have hfin_false : w.game.finished = false := by
    cases hfe : w.game.finished
    · rfl
    · rw [hfin_iff.mpr hfe] at hstate
      cases hstate
  have hres0 := hres hfin_false
  constructor
  · intro w2 m hok
    unfold bwPick at hok
    split at hok
    next m0 hrp =>
      injection hok with hok
      injection hok with hok1 hok2
      subst hok1
      exact hw
    next hrp =>
      split at hok
      next hnone => cases hok
      next current hcur =>
        split at hok
        · injection hok with hok
          injection hok with hok1 hok2
          subst hok1
          exact hw
        · dsimp only at hok
          split at hok
          · injection hok with hok
            injection hok with hok1 hok2
            subst hok1
            exact hw
          · split at hok
            next hnone => cases hok
            next ball hball =>
              cases hact : st.action with
              | bin =>
                rw [hact] at hok
                simp only [reduceIte] at hok
                split at hok
                · split at hok
                  next w3 hba =>
                    obtain ⟨q, hw3⟩ := bwAnnounce_eta _ _ _ hba
                    subst hw3
                    injection hok with hok
                    injection hok with hok1 hok2
                    subst hok1
                    apply inv_mk
                    · exact hnodup
                    · exact hiff
                    · exact hres0
                    · exact hfin_false
                    · intro hcon
                      cases hcon
                    · exact trivial
                  next e0 hba => cases hok
                · split at hok
                  next hnone => cases hok
                  next binned hlast =>
                    unfold mkSplitStealState at hok
                    dsimp only at hok
                    injection hok with hok
                    injection hok with hok1 hok2
                    subst hok1
                    apply inv_mk
                    · exact hnodup
                    · exact hiff
                    · exact hres0
                    · exact hfin_false
                    · intro hcon
                      cases hcon
                    · exact trivial
              | win =>
                rw [hact] at hok
                simp only [reduceIte] at hok
                split at hok
                · split at hok
                  next w3 hba =>
                    obtain ⟨q, hw3⟩ := bwAnnounce_eta _ _ _ hba
                    subst hw3
                    injection hok with hok
                    injection hok with hok1 hok2
                    subst hok1
                    apply inv_mk
                    · exact hnodup
                    · exact hiff
                    · exact hres0
                    · exact hfin_false
                    · intro hcon
                      cases hcon
                    · exact trivial
                  next e0 hba => cases hok
                · split at hok
                  next hnone => cases hok
                  next binned hlast =>
                    unfold mkSplitStealState at hok
                    dsimp only at hok
                    injection hok with hok
                    injection hok with hok1 hok2
                    subst hok1
                    apply inv_mk
                    · exact hnodup
                    · exact hiff
                    · exact hres0
                    · exact hfin_false
                    · intro hcon
                      cases hcon
                    · exact trivial
  · intro e hok
    unfold bwPick at hok
    split at hok
    next m0 hrp => cases hok
    next hrp =>
      split at hok
      next hnone =>
        injection hok with hok
        subst hok
        intro hcon
        cases hcon
      next current hcur =>
        split at hok
        · cases hok
        · dsimp only at hok
          split at hok
          · cases hok
          · split at hok
            next hnone =>
              injection hok with hok
              subst hok
              intro hcon
              cases hcon
            next ball hball =>
              cases hact : st.action with
              | bin =>
                rw [hact] at hok
                simp only [reduceIte] at hok
                split at hok
                · split at hok
                  next w3 hba => cases hok
                  next e0 hba =>
                    injection hok with hok
                    subst hok
                    rw [bwAnnounce_error _ _ _ hba]
                    intro hcon
                    cases hcon
                · split at hok
                  next hnone =>
                    injection hok with hok
                    subst hok
                    intro hcon
                    cases hcon
                  next binned hlast =>
                    unfold mkSplitStealState at hok
                    dsimp only at hok
                    cases hok
              | win =>
                rw [hact] at hok
                simp only [reduceIte] at hok
                split at hok
                · split at hok
                  next w3 hba => cases hok
                  next e0 hba =>
                    injection hok with hok
                    subst hok
                    rw [bwAnnounce_error _ _ _ hba]
                    intro hcon
                    cases hcon
                · split at hok
                  next hnone =>
                    injection hok with hok
                    subst hok
                    intro hcon
                    cases hcon
                  next binned hlast =>
                    unfold mkSplitStealState at hok
                    dsimp only at hok
                    cases hok

/-- `BinWinState.on_leave` preserves the invariant and never raises an
assertion. -/
theorem bwLeave_spec (w : World) (st : BWState) (p : Pl) (forced : Bool)
    (hw : Inv w) (hstate : w.game.state = .binWin st) :
    (∀ w2 m, bwLeave w st p forced = .ok (w2, m) → Inv w2) ∧
    (∀ e, bwLeave w st p forced = .error e → e ≠ .assertionError) := by
  have hnot_hs : ∀ hs, w.game.state ≠ .hiddenShown hs := by
    intro hs hcon
    rw [hstate] at hcon
    cases hcon
  constructor
  · intro w2 m hok
    unfold bwLeave at hok
    split at hok
    · dsimp only at hok
      cases hgl : gsOnLeave w p forced with
      | error e0 =>
        rw [hgl] at hok
        simp only [exbind_err] at hok
        cases hok
      | ok pr =>
        obtain ⟨w1, msg1⟩ := pr
        have hinv1 : Inv w1 := (gsOnLeave_spec w p forced hw hnot_hs).1 w1 msg1 hgl
        rw [hgl] at hok
        simp only [exbind_ok] at hok
        split at hok
        · split at hok
          next e0 hba => cases hok
          next w3 hba =>
            obtain ⟨q, hw3⟩ := bwAnnounce_eta _ _ _ hba
            subst hw3
            split at hok
            next bw1 hst1 =>
              injection hok with hok
              injection hok with hok1 hok2
              subst hok1
              obtain ⟨hnodup1, hiff1, hres1, hfin_iff1, hfin_pl1, hstok1⟩ := hinv1
              have hfin1 : w1.game.finished = false := by
                cases hfe : w1.game.finished
                · rfl
                · rw [hfin_iff1.mpr hfe] at hst1
                  cases hst1
              apply inv_mk
              · exact hnodup1
              · exact hiff1
              · exact hres1 hfin1
              · exact hfin1
              · intro hcon
                cases hcon
              · exact trivial
            next hne =>
              injection hok with hok
              injection hok with hok1 hok2
              subst hok1
              exact inv_sendChannel _ _ hinv1
        · injection hok with hok
          injection hok with hok1 hok2
          subst hok1
          exact hinv1
    · cases hok
  · intro e hok
    unfold bwLeave at hok
    split at hok
    · dsimp only at hok
      cases hgl : gsOnLeave w p forced with
      | error e0 =>
        rw [hgl] at hok
        simp only [exbind_err] at hok
        injection hok with hok
        subst hok
        rw [(gsOnLeave_spec w p forced hw hnot_hs).2 e0 hgl]
        intro hcon
        cases hcon
      | ok pr =>
        obtain ⟨w1, msg1⟩ := pr
        rw [hgl] at hok
        simp only [exbind_ok] at hok
        split at hok
        · split at hok
          next e0 hba =>
            injection hok with hok
            subst hok
            rw [bwAnnounce_error _ _ _ hba]
            intro hcon
            cases hcon
          next w3 hba =>
            split at hok <;> cases hok
        · cases hok
    · injection hok with hok
      subst hok
      intro hcon
      cases hcon

/-- A freshly started game satisfies the session invariant. -/
theorem inv_init (host : Pl) (env : Pl → GamePtr)
    (henv : ∀ p, env p ≠ .this) (hfree : env host = .null) :
    Inv (initWorld host env) := by
  refine ⟨?_, ?_, ?_, ?_, ?_, ?_⟩
  · exact List.nodup_singleton host
  · intro q
    show (if q = host then GamePtr.this else env q) = .this ↔ q ∈ [] ++ [host]
    constructor
    · intro h
      by_cases hq : q = host
      · subst hq
        simp
      · rw [if_neg hq] at h
        exact absurd h (henv q)
    · intro h
      have hq : q = host := by simpa using h
      rw [if_pos hq]
  · intro _ e he
    have hres : (initWorld host env).game.results = [(host, 0)] := rfl
    rw [hres, List.mem_singleton] at he
    rw [he]
  · have h1 : (initWorld host env).game.state = .waiting := rfl
    have h2 : (initWorld host env).game.finished = false := rfl
    rw [h1, h2]
    constructor
    · intro hcon
      cases hcon
    · intro hcon
      cases hcon
  · intro hcon
    have h2 : (initWorld host env).game.finished = false := rfl
    rw [h2] at hcon
    cases hcon
  · unfold stateOk
    have h1 : (initWorld host env).game.state = .waiting := rfl
    rw [h1]
    refine ⟨?_, ?_⟩
    · show generate_pool.length = 100
      decide
    · show (1 : Nat) ≤ 3
      decide

/-- One successful public operation preserves the invariant, and no
operation from an invariant world raises `AssertionError`. -/
theorem step_spec (w : World) (op : Op) (s : Seeds) (hw : Inv w) :
    (∀ w2 m, step w op s = .ok (w2, m) → Inv w2) ∧
    (∀ e, step w op s = .error e → e ≠ .assertionError) := by
  cases op with
  | join p =>
    cases hstate : w.game.state with
    | waiting =>
      obtain ⟨h1, h2⟩ := waitingJoin_spec w p s hw hstate
      constructor
      · intro w2 m hok
        unfold step at hok
        rw [hstate] at hok
        exact h1 w2 m hok
      · intro e hok
        unfold step at hok
        rw [hstate] at hok
        exact absurd hok (h2 e)
    | hiddenShown hs =>
      constructor
      · intro w2 m hok
        unfold step at hok
        rw [hstate] at hok
        injection hok with hok
        injection hok with hok1 hok2
        subst hok1
        exact hw
      · intro e hok
        unfold step at hok
        rw [hstate] at hok
        cases hok
    | binWin bw =>
      constructor
      · intro w2 m hok
        unfold step at hok
        rw [hstate] at hok
        injection hok with hok
        injection hok with hok1 hok2
        subst hok1
        exact hw
      · intro e hok
        unfold step at hok
        rw [hstate] at hok
        cases hok
    | splitSteal ss =>
      constructor
      · intro w2 m hok
        unfold step at hok
        rw [hstate] at hok
        injection hok with hok
        injection hok with hok1 hok2
        subst hok1
        exact hw
      · intro e hok
        unfold step at hok
        rw [hstate] at hok
        cases hok
    | finished =>
      constructor
      · intro w2 m hok
        unfold step at hok
        rw [hstate] at hok
        injection hok with hok
        injection hok with hok1 hok2
        subst hok1
        exact hw
      · intro e hok
        unfold step at hok
        rw [hstate] at hok
        cases hok
  | vote p t =>
    cases hstate : w.game.state with
    | hiddenShown hs =>
      obtain ⟨h1, h2⟩ := hsVote_spec w hs p t s hw hstate
      constructor
      · intro w2 m hok
        unfold step at hok
        rw [hstate] at hok
        exact h1 w2 m hok
      · intro e hok
        unfold step at hok
        rw [hstate] at hok
        exact h2 e hok
    | waiting =>
      constructor
      · intro w2 m hok
        unfold step at hok
        rw [hstate] at hok
        injection hok with hok
        injection hok with hok1 hok2
        subst hok1
        exact hw
      · intro e hok
        unfold step at hok
        rw [hstate] at hok
        cases hok
    | binWin bw =>
      constructor
      · intro w2 m hok
        unfold step at hok
        rw [hstate] at hok
        injection hok with hok
        injection hok with hok1 hok2
        subst hok1
        exact hw
      · intro e hok
        unfold step at hok
        rw [hstate] at hok
        cases hok
    | splitSteal ss =>
      constructor
      · intro w2 m hok
        unfold step at hok
        rw [hstate] at hok
        injection hok with hok
        injection hok with hok1 hok2
        subst hok1
        exact hw
      · intro e hok
        unfold step at hok
        rw [hstate] at hok
        cases hok
    | finished =>
      constructor
      · intro w2 m hok
        unfold step at hok
        rw [hstate] at hok
        injection hok with hok
        injection hok with hok1 hok2
        subst hok1
        exact hw
      · intro e hok
        unfold step at hok
        rw [hstate] at hok
        cases hok
  | viewBalls p =>
    cases hstate : w.game.state with
    | hiddenShown hs =>
      obtain ⟨h1, h2⟩ := hsViewBalls_spec w hs p hw
      constructor
      · intro w2 m hok
        unfold step at hok
        rw [hstate] at hok
        exact h1 w2 m hok
      · intro e hok
        unfold step at hok
        rw [hstate] at hok
        rw [h2 e hok]
        intro hcon
        cases hcon
    | waiting =>
      constructor
      · intro w2 m hok
        unfold step at hok
        rw [hstate] at hok
        injection hok with hok
        injection hok with hok1 hok2
        subst hok1
        exact hw
      · intro e hok
        unfold step at hok
        rw [hstate] at hok
        cases hok
    | binWin bw =>
      constructor
      · intro w2 m hok
        unfold step at hok
        rw [hstate] at hok
        injection hok with hok
        injection hok with hok1 hok2
        subst hok1
        exact hw
      · intro e hok
        unfold step at hok
        rw [hstate] at hok
        cases hok
    | splitSteal ss =>
      constructor
      · intro w2 m hok
        unfold step at hok
        rw [hstate] at hok
        injection hok with hok
        injection hok with hok1 hok2
        subst hok1
        exact hw
      · intro e hok
        unfold step at hok
        rw [hstate] at hok
        cases hok
    | finished =>
      constructor
      · intro w2 m hok
        unfold step at hok
        rw [hstate] at hok
        injection hok with hok
        injection hok with hok1 hok2
        subst hok1
        exact hw
      · intro e hok
        unfold step at hok
        rw [hstate] at hok
        cases hok
  | pick p ball_id =>
    cases hstate : w.game.state with
    | binWin bw =>
      obtain ⟨h1, h2⟩ := bwPick_spec w bw p ball_id hw hstate
      constructor
      · intro w2 m hok
        unfold step at hok
        rw [hstate] at hok
        exact h1 w2 m hok
      · intro e hok
        unfold step at hok
        rw [hstate] at hok
        exact h2 e hok
    | waiting =>
      constructor
      · intro w2 m hok
        unfold step at hok
        rw [hstate] at hok
        injection hok with hok
        injection hok with hok1 hok2
        subst hok1
        exact hw
      · intro e hok
        unfold step at hok
        rw [hstate] at hok
        cases hok
    | hiddenShown hs =>
      constructor
      · intro w2 m hok
        unfold step at hok
        rw [hstate] at hok
        injection hok with hok
        injection hok with hok1 hok2
        subst hok1
        exact hw
      · intro e hok
        unfold step at hok
        rw [hstate] at hok
        cases hok
    | splitSteal ss =>
      constructor
      · intro w2 m hok
        unfold step at hok
        rw [hstate] at hok
        injection hok with hok
        injection hok with hok1 hok2
        subst hok1
        exact hw
      · intro e hok
        unfold step at hok
        rw [hstate] at hok
        cases hok
    | finished =>
      constructor
      · intro w2 m hok
        unfold step at hok
        rw [hstate] at hok
        injection hok with hok
        injection hok with hok1 hok2
        subst hok1
        exact hw
      · intro e hok
        unfold step at hok
        rw [hstate] at hok
        cases hok
  | split p =>
    cases hstate : w.game.state with
    | splitSteal ss =>
      obtain ⟨h1, h2⟩ := ssHandleAction_spec w ss p .split hw hstate
      constructor
      · intro w2 m hok
        unfold step at hok
        rw [hstate] at hok
        exact h1 w2 m hok
      · intro e hok
        unfold step at hok
        rw [hstate] at hok
        exact h2 e hok
    | waiting =>
      constructor
      · intro w2 m hok
        unfold step at hok
        rw [hstate] at hok
        injection hok with hok
        injection hok with hok1 hok2
        subst hok1
        exact hw
      · intro e hok
        unfold step at hok
        rw [hstate] at hok
        cases hok
    | hiddenShown hs =>
      constructor
      · intro w2 m hok
        unfold step at hok
        rw [hstate] at hok
        injection hok with hok
        injection hok with hok1 hok2
        subst hok1
        exact hw
      · intro e hok
        unfold step at hok
        rw [hstate] at hok
        cases hok
    | binWin bw =>
      constructor
      · intro w2 m hok
        unfold step at hok
        rw [hstate] at hok
        injection hok with hok
        injection hok with hok1 hok2
        subst hok1
        exact hw
      · intro e hok
        unfold step at hok
        rw [hstate] at hok
        cases hok
    | finished =>
      constructor
      · intro w2 m hok
        unfold step at hok
        rw [hstate] at hok
        injection hok with hok
        injection hok with hok1 hok2
        subst hok1
        exact hw
      · intro e hok
        unfold step at hok
        rw [hstate] at hok
        cases hok
  | steal p =>
    cases hstate : w.game.state with
    | splitSteal ss =>
      obtain ⟨h1, h2⟩ := ssHandleAction_spec w ss p .steal hw hstate
      constructor
      · intro w2 m hok
        unfold step at hok
        rw [hstate] at hok
        exact h1 w2 m hok
      · intro e hok
        unfold step at hok
        rw [hstate] at hok
        exact h2 e hok
    | waiting =>
      constructor
      · intro w2 m hok
        unfold step at hok
        rw [hstate] at hok
        injection hok with hok
        injection hok with hok1 hok2
        subst hok1
        exact hw
      · intro e hok
        unfold step at hok
        rw [hstate] at hok
        cases hok
    | hiddenShown hs =>
      constructor
      · intro w2 m hok
        unfold step at hok
        rw [hstate] at hok
        injection hok with hok
        injection hok with hok1 hok2
        subst hok1
        exact hw
      · intro e hok
        unfold step at hok
        rw [hstate] at hok
        cases hok
    | binWin bw =>
      constructor
      · intro w2 m hok
        unfold step at hok
        rw [hstate] at hok
        injection hok with hok
        injection hok with hok1 hok2
        subst hok1
        exact hw
      · intro e hok
        unfold step at hok
        rw [hstate] at hok
        cases hok
    | finished =>
      constructor
      · intro w2 m hok
        unfold step at hok
        rw [hstate] at hok
        injection hok with hok
        injection hok with hok1 hok2
        subst hok1
        exact hw
      · intro e hok
        unfold step at hok
        rw [hstate] at hok
        cases hok
  | leave p forced =>
    cases hstate : w.game.state with
    | hiddenShown hs =>
      obtain ⟨h1, h2⟩ := hsLeave_spec w hs p forced s hw hstate
      constructor
      · intro w2 m hok
        unfold step at hok
        rw [hstate] at hok
        exact h1 w2 m hok
      · intro e hok
        unfold step at hok
        rw [hstate] at hok
        exact h2 e hok
    | binWin bw =>
      obtain ⟨h1, h2⟩ := bwLeave_spec w bw p forced hw hstate
      constructor
      · intro w2 m hok
        unfold step at hok
        rw [hstate] at hok
        exact h1 w2 m hok
      · intro e hok
        unfold step at hok
        rw [hstate] at hok
        exact h2 e hok
    | splitSteal ss =>
      obtain ⟨h1, h2⟩ := ssLeave_spec w ss p forced hw hstate
      constructor
      · intro w2 m hok
        unfold step at hok
        rw [hstate] at hok
        exact h1 w2 m hok
      · intro e hok
        unfold step at hok
        rw [hstate] at hok
        exact h2 e hok
    | waiting =>
      have hnot_hs : ∀ hs, w.game.state ≠ .hiddenShown hs := by
        intro hs hcon
        rw [hstate] at hcon
        cases hcon
      obtain ⟨h1, h2⟩ := gsOnLeave_spec w p forced hw hnot_hs
      constructor
      · intro w2 m hok
        unfold step at hok
        rw [hstate] at hok
        exact h1 w2 m hok
      · intro e hok
        unfold step at hok
        rw [hstate] at hok
        rw [h2 e hok]
        intro hcon
        cases hcon
    | finished =>
      have hnot_hs : ∀ hs, w.game.state ≠ .hiddenShown hs := by
        intro hs hcon
        rw [hstate] at hcon
        cases hcon
      obtain ⟨h1, h2⟩ := gsOnLeave_spec w p forced hw hnot_hs
      constructor
      · intro w2 m hok
        unfold step at hok
        rw [hstate] at hok
        exact h1 w2 m hok
      · intro e hok
        unfold step at hok
        rw [hstate] at hok
        rw [h2 e hok]
        intro hcon
        cases hcon

/-- Every reachable world satisfies the session invariant. -/
theorem reach_inv (w : World) (hw : Reach w) : Inv w := by
  induction hw with
  | init host env henv hfree => exact inv_init host env henv hfree
  | next w w2 op s m hw h ih => exact (step_spec w op s ih).1 w2 m h

/-- C8: from any world reachable through the public operations no
operation raises `AssertionError`, and every reachable HiddenShown
state satisfies the construction-time count identity: round 1 holds 12
fresh cash plus 4 killers = 16 = (2+2)×4 tokens for its 4 players, and
round 2 holds the 12 leftover tokens plus 2 fresh cash and 1 killer =
15 = (2+3)×3 tokens for its 3 players, each player allocated exactly
`shown_count` shown and `hidden_count` hidden balls. -/
theorem c8_no_assertion_failure (w : World) (hw : Reach w) :
    (∀ op s, step w op s ≠ .error .assertionError) ∧
    (∀ hs, w.game.state = .hiddenShown hs →
      (hs.number = 1 ∧ w.game.players.length = 4 ∧
        four_cash_ball_count + four_killer_count =
          (four_shown_count + four_hidden_count) * w.game.players.length ∧
        ballCountsOk w.game.players hs four_shown_count four_hidden_count) ∨
      (hs.number = 2 ∧ w.game.players.length = 3 ∧
        12 + three_cash_ball_count + three_killer_count =
          (three_shown_count + three_hidden_count) * w.game.players.length ∧
        ballCountsOk w.game.players hs three_shown_count three_hidden_count)) := by
  have hinv := reach_inv w hw
  constructor
  · intro op s hcon
    exact (step_spec w op s hinv).2 .assertionError hcon rfl
  · intro hs hstate
    have hstok := hinv.2.2.2.2.2
    unfold stateOk at hstok
    rw [hstate] at hstok
    rcases hstok with ⟨h1, h2, h3, h4⟩ | ⟨h1, h2, h3, h4⟩
    · left
      refine ⟨h1, h2, ?_, h4⟩
      rw [h2]
      decide
    · right
      refine ⟨h1, h2, ?_, h4⟩
      rw [h2]
      decide

/-- C8 witness: the join operation on a freshly started game never
raises `AssertionError`. -/
theorem c8_no_assertion_failure_witness :
    step demoWorld (.join 1) zeroSeeds ≠ .error .assertionError :=
  (c8_no_assertion_failure demoWorld
    (Reach.init 0 (fun _ => .null) (fun _ h => GamePtr.noConfusion h) rfl)).1
    (.join 1) zeroSeeds

/-- C10: in every world reachable through the public operations, a
player's back-reference points at the session exactly when the player
is on the player list, and a referenced player appears on that list
exactly once. -/
theorem c10_membership_invariant (w : World) (hw : Reach w) :
    ∀ p, (w.curr p = .this ↔ p ∈ w.game.players) ∧
      (w.curr p = .this → w.game.players.count p = 1) := by
  have hinv := reach_inv w hw
  intro p
  refine ⟨hinv.2.1 p, ?_⟩
  intro hp
  exact List.count_eq_one_of_mem hinv.1 ((hinv.2.1 p).mp hp)

/-- C10 witness: in the freshly started game, the host's
back-reference points at the game and the host is listed exactly
once. -/
theorem c10_membership_invariant_witness :
    (demoWorld.curr 0 = .this ↔ 0 ∈ demoWorld.game.players) ∧
    (demoWorld.curr 0 = .this → demoWorld.game.players.count 0 = 1) :=
  c10_membership_invariant demoWorld
    (Reach.init 0 (fun _ => .null) (fun _ h => GamePtr.noConfusion h) rfl) 0

/-- C5 (amended): `_add_player` seats the host with a zero results
entry at start, so results is never empty; in every reachable world
the results entries are all zero while the finished flag is unset; a
session cancelled because the last player left moves to Finished with
the one all-zero entry of the player that had joined; and the full
demo game finishes with one entry per player that ever joined (four),
the two finalists each holding floor(180/2) = 90. -/
theorem c5_amended (w : World) (hw : Reach w) :
    (initWorld 0 (fun _ => .null)).game.results = [(0, 0)] ∧
    (w.game.finished = false → ∀ e ∈ w.game.results, e.2 = 0) ∧
    runResults demoWorld [(.leave 0 false, zeroSeeds)] = some (true, [(0, 0)]) ∧
    runResults demoWorld demoFullGame =
      some (true, [(0, 90), (1, 90), (2, 0), (3, 0)]) := by
  refine ⟨rfl, (reach_inv w hw).2.2.1, ?_, ?_⟩
  · decide
  · decide

/-- C5 witness: the amended statement instantiated at the freshly
started demo game. -/
theorem c5_amended_witness :
    (initWorld 0 (fun _ => .null)).game.results = [(0, 0)] ∧
    (demoWorld.game.finished = false → ∀ e ∈ demoWorld.game.results, e.2 = 0) ∧
    runResults demoWorld [(.leave 0 false, zeroSeeds)] = some (true, [(0, 0)]) ∧
    runResults demoWorld demoFullGame =
      some (true, [(0, 90), (1, 90), (2, 0), (3, 0)]) :=
  c5_amended demoWorld
    (Reach.init 0 (fun _ => .null) (fun _ h => GamePtr.noConfusion h) rfl)

end GoldenBalls
